import Mathlib

/-!
Shallow embedding of the K-line time engine of the `common-rs` repository
(`src/qh/trading_day.rs`, `src/qh/klinetime/*.rs`, `src/ymdhms.rs`), together
with theorems settling the specification claims about it.

Conventions:
* `chrono::NaiveDate` is embedded as `Date` (proleptic Gregorian, `Nat` fields);
  day arithmetic is embedded through `Date.succ` / `Date.pred` iteration and the
  day-count function `Date.dayNum` mirrors the signed-duration subtraction.
* `chrono::NaiveTime` is embedded as `Tod`, `chrono::NaiveDateTime` as `DateTime`.
* Rust `Result<T, KLineTimeError>` is embedded as `Except KLineTimeError T`;
  a Rust panic (`unwrap` on empty data) is the explicit `KLineTimeError.panicked`.
* Hash maps are embedded as association lists with first-match lookup, which
  matches the insert-once / `or_insert` usage in the sources.
-/

set_option maxHeartbeats 1600000

/-- Embedding of `chrono::NaiveDate`: a calendar date. -/
structure Date where
  y : Nat
  m : Nat
  d : Nat
deriving Repr, DecidableEq

/-- Gregorian leap-year test, as used by chrono. -/
def isLeapYear (y : Nat) : Bool :=
  (y % 4 == 0 && y % 100 != 0) || y % 400 == 0

/-- Number of days of month `m` in year `y`. -/
def daysInMonth (y m : Nat) : Nat :=
  match m with
  | 1 => 31
  | 2 => if isLeapYear y then 29 else 28
  | 3 => 31
  | 4 => 30
  | 5 => 31
  | 6 => 30
  | 7 => 31
  | 8 => 31
  | 9 => 30
  | 10 => 31
  | 11 => 30
  | 12 => 31
  | _ => 30

/-- A well-formed calendar date. -/
def Date.Valid (x : Date) : Prop :=
  1 ≤ x.y ∧ 1 ≤ x.m ∧ x.m ≤ 12 ∧ 1 ≤ x.d ∧ x.d ≤ daysInMonth x.y x.m

instance (x : Date) : Decidable x.Valid := by
  unfold Date.Valid; infer_instance

/-- Days contributed by all years before `y` (proleptic Gregorian). -/
def daysBeforeYear (y : Nat) : Nat :=
  365 * (y - 1) + (y - 1) / 4 + (y - 1) / 400 - (y - 1) / 100

/-- Cumulative day count of the months before `m`, in a non-leap year. -/
def monthOffset (m : Nat) : Nat :=
  match m with
  | 1 => 0
  | 2 => 31
  | 3 => 59
  | 4 => 90
  | 5 => 120
  | 6 => 151
  | 7 => 181
  | 8 => 212
  | 9 => 243
  | 10 => 273
  | 11 => 304
  | 12 => 334
  | _ => 365

/-- Cumulative day count of the months before `m` in year `y`. -/
def daysBeforeMonth (y m : Nat) : Nat :=
  monthOffset m + (if 3 ≤ m ∧ isLeapYear y = true then 1 else 0)

/-- Absolute day index of a date (0 = January 1 of year 1).  This is the
measure through which `chrono` date subtraction and `Duration::days`
arithmetic are reasoned about. -/
def Date.dayNum (x : Date) : Nat :=
  daysBeforeYear x.y + daysBeforeMonth x.y x.m + (x.d - 1)

/-- The next calendar day (`chrono`: `date + Duration::days(1)` / `succ_opt`). -/
def Date.succ (x : Date) : Date :=
  if x.d < daysInMonth x.y x.m then ⟨x.y, x.m, x.d + 1⟩
  else if x.m < 12 then ⟨x.y, x.m + 1, 1⟩
  else ⟨x.y + 1, 1, 1⟩

/-- The previous calendar day (`chrono`: `date - Duration::days(1)` / `pred_opt`). -/
def Date.pred (x : Date) : Date :=
  if 1 < x.d then ⟨x.y, x.m, x.d - 1⟩
  else if 1 < x.m then ⟨x.y, x.m - 1, daysInMonth x.y (x.m - 1)⟩
  else ⟨x.y - 1, 12, 31⟩

/-- `date + Duration::days(n)` for `n ≥ 0`. -/
def Date.addDays (x : Date) : Nat → Date
  | 0 => x
  | n + 1 => (x.addDays n).succ

/-- `date - Duration::days(n)` for `n ≥ 0`. -/
def Date.subDays (x : Date) : Nat → Date
  | 0 => x
  | n + 1 => (x.subDays n).pred

/-- Strict date order (`chrono` orders `NaiveDate` chronologically; on valid
dates this is lexicographic on year, month, day). -/
def Date.lt (a b : Date) : Prop :=
  a.y < b.y ∨ (a.y = b.y ∧ (a.m < b.m ∨ (a.m = b.m ∧ a.d < b.d)))

instance (a b : Date) : Decidable (Date.lt a b) := by
  unfold Date.lt; infer_instance

def Date.le (a b : Date) : Prop := Date.lt a b ∨ a = b

instance (a b : Date) : Decidable (Date.le a b) := by
  unfold Date.le; infer_instance

lemma isLeapYear_iff (y : Nat) :
    isLeapYear y = true ↔ ((y % 4 = 0 ∧ ¬ y % 100 = 0) ∨ y % 400 = 0) := by
  simp [isLeapYear, Bool.or_eq_true, Bool.and_eq_true]

lemma daysBeforeYear_succ (y : Nat) (hy : 1 ≤ y) :
    daysBeforeYear (y + 1) =
      daysBeforeYear y + 365 + (if isLeapYear y = true then 1 else 0) := by
  cases hb : isLeapYear y with
  | true =>
      have hl := (isLeapYear_iff y).mp hb
      simp only [hb, if_true]
      unfold daysBeforeYear
      omega
  | false =>
      have hl : ¬ ((y % 4 = 0 ∧ ¬ y % 100 = 0) ∨ y % 400 = 0) := by
        intro hc
        rw [← isLeapYear_iff] at hc
        rw [hb] at hc
        exact Bool.false_ne_true hc
      simp only [hb, Bool.false_eq_true, if_false]
      unfold daysBeforeYear
      omega

lemma daysBeforeMonth_succ (y m : Nat) (h1 : 1 ≤ m) (h2 : m < 12) :
    daysBeforeMonth y (m + 1) = daysBeforeMonth y m + daysInMonth y m := by
  interval_cases m <;>
    cases hb : isLeapYear y <;>
      simp +arith +decide [daysBeforeMonth, monthOffset, daysInMonth, hb]

lemma daysInMonth_pos (y m : Nat) : 1 ≤ daysInMonth y m := by
  unfold daysInMonth
  split <;> first | omega | (split <;> omega)

lemma Date.valid_succ {x : Date} (h : x.Valid) : x.succ.Valid := by
  obtain ⟨h1, h2, h3, h4, h5⟩ := h
  have hp := daysInMonth_pos x.y (x.m + 1)
  have hq : (1 : Nat) ≤ daysInMonth (x.y + 1) 1 := by simp [daysInMonth]
  unfold Date.succ Date.Valid
  split
  · simp only
    omega
  · split
    · simp only
      omega
    · simp only [daysInMonth]
      omega

lemma Date.dayNum_succ {x : Date} (h : x.Valid) :
    x.succ.dayNum = x.dayNum + 1 := by
  obtain ⟨h1, h2, h3, h4, h5⟩ := h
  unfold Date.succ
  split
  · simp [Date.dayNum]
    omega
  · split
    · have hm : x.m < 12 := by assumption
      have hd : x.d = daysInMonth x.y x.m := by omega
      simp only [Date.dayNum]
      rw [daysBeforeMonth_succ x.y x.m h2 hm]
      omega
    · have hm : x.m = 12 := by omega
      have hd : x.d = 31 := by
        have hn : ¬ x.d < daysInMonth x.y x.m := by assumption
        rw [hm] at h5 hn
        simp [daysInMonth] at h5 hn
        omega
      simp only [Date.dayNum]
      rw [daysBeforeYear_succ x.y h1, hm]
      cases hb : isLeapYear x.y <;>
        simp [daysBeforeMonth, monthOffset, hb] <;> omega

lemma Date.valid_pred {x : Date} (h : x.Valid) (h0 : 1 ≤ x.dayNum) :
    x.pred.Valid ∧ x.pred.dayNum + 1 = x.dayNum := by
  obtain ⟨xy, xm, xd⟩ := x
  obtain ⟨h1, h2, h3, h4, h5⟩ := h
  simp only at h1 h2 h3 h4 h5
  simp only [Date.dayNum] at h0
  simp only [Date.pred]
  split
  · simp only [Date.Valid, Date.dayNum]
    omega
  · split
    · have hm2 : 2 ≤ xm := by omega
      have hs := daysBeforeMonth_succ xy (xm - 1) (by omega) (by omega)
      have hdim := daysInMonth_pos xy (xm - 1)
      have hx : xm - 1 + 1 = xm := by omega
      rw [hx] at hs
      simp only [Date.Valid, Date.dayNum]
      omega
    · have hd1 : xd = 1 := by omega
      have hm1 : xm = 1 := by omega
      subst hd1
      subst hm1
      have hy2 : 2 ≤ xy := by
        by_contra hc
        have hxy : xy = 1 := by omega
        rw [hxy] at h0
        norm_num [daysBeforeYear, daysBeforeMonth, monthOffset] at h0
      have hs := daysBeforeYear_succ (xy - 1) (by omega)
      have hx : xy - 1 + 1 = xy := by omega
      rw [hx] at hs
      simp only [Date.Valid, Date.dayNum]
      cases hb : isLeapYear (xy - 1) <;>
        simp [hb, daysBeforeMonth, monthOffset, daysInMonth] at hs ⊢ <;> omega

lemma Date.valid_addDays {x : Date} (h : x.Valid) (n : Nat) :
    (x.addDays n).Valid ∧ (x.addDays n).dayNum = x.dayNum + n := by
  induction n with
  | zero => exact ⟨h, rfl⟩
  | succ k ih =>
      obtain ⟨hv, hd⟩ := ih
      refine ⟨Date.valid_succ hv, ?_⟩
      rw [Date.addDays, Date.dayNum_succ hv, hd]
      omega

lemma Date.valid_subDays {x : Date} (h : x.Valid) {n : Nat} (hn : n ≤ x.dayNum) :
    (x.subDays n).Valid ∧ (x.subDays n).dayNum = x.dayNum - n := by
  induction n with
  | zero => exact ⟨h, rfl⟩
  | succ k ih =>
      obtain ⟨hv, hd⟩ := ih (by omega)
      have h1 : 1 ≤ (x.subDays k).dayNum := by omega
      obtain ⟨hv2, hd2⟩ := Date.valid_pred hv h1
      have hstep : x.subDays (k + 1) = (x.subDays k).pred := rfl
      rw [hstep]
      exact ⟨hv2, by omega⟩

lemma daysBeforeYear_mono {y y2 : Nat} (h : y ≤ y2) :
    daysBeforeYear y ≤ daysBeforeYear y2 := by
  induction y2 with
  | zero =>
      have hz : y = 0 := by omega
      rw [hz]
  | succ k ih =>
      rcases Nat.lt_or_ge y (k + 1) with hc | hc
      · have hik := ih (by omega)
        rcases Nat.eq_zero_or_pos k with hk | hk
        · have hz : y = 0 := by omega
          rw [hz]
          norm_num [daysBeforeYear]
        · have hs := daysBeforeYear_succ k hk
          split_ifs at hs <;> omega
      · have hz : y = k + 1 := by omega
        rw [hz]

lemma daysBeforeMonth_mono {y m m2 : Nat} (h1 : 1 ≤ m) (h : m ≤ m2) (h2 : m2 ≤ 12) :
    daysBeforeMonth y m ≤ daysBeforeMonth y m2 := by
  induction m2 with
  | zero => omega
  | succ k ih =>
      rcases Nat.lt_or_ge m (k + 1) with hc | hc
      · have hk : 1 ≤ k := by omega
        calc daysBeforeMonth y m ≤ daysBeforeMonth y k := ih (by omega) (by omega)
          _ ≤ daysBeforeMonth y (k + 1) := by
              rw [daysBeforeMonth_succ y k hk (by omega)]; omega
      · have hz : m = k + 1 := by omega
        rw [hz]

lemma Date.dayNum_lt_year_succ {x : Date} (h : x.Valid) :
    x.dayNum < daysBeforeYear (x.y + 1) := by
  obtain ⟨xy, xm, xd⟩ := x
  obtain ⟨h1, h2, h3, h4, h5⟩ := h
  simp only at h1 h2 h3 h4 h5
  have hs := daysBeforeYear_succ xy h1
  simp only [Date.dayNum]
  have hbound : daysBeforeMonth xy xm + (xd - 1) <
      365 + (if isLeapYear xy = true then 1 else 0) := by
    interval_cases xm <;>
      cases hb : isLeapYear xy <;>
        simp [daysBeforeMonth, monthOffset, daysInMonth, hb] at h5 ⊢ <;> omega
  omega

lemma Date.dayNum_lt_of_lt {a b : Date} (ha : a.Valid) (hb : b.Valid)
    (h : Date.lt a b) : a.dayNum < b.dayNum := by
  have hyearbound := Date.dayNum_lt_year_succ ha
  obtain ⟨ha1, ha2, ha3, ha4, ha5⟩ := ha
  obtain ⟨hb1, hb2, hb3, hb4, hb5⟩ := hb
  unfold Date.dayNum at hyearbound ⊢
  rcases h with hlt | ⟨hey, hrest⟩
  · have hmono := @daysBeforeYear_mono (a.y + 1) b.y (by omega)
    omega
  · rcases hrest with hmlt | ⟨hem, hdlt⟩
    · have hstep := daysBeforeMonth_succ b.y a.m ha2 (by omega)
      have hmono := @daysBeforeMonth_mono b.y (a.m + 1) b.m
        (by omega) (by omega) hb3
      rw [hey] at ha5 ⊢
      omega
    · rw [hey, hem]
      omega

lemma Date.eq_iff_fields {a b : Date} : a = b ↔ (a.y = b.y ∧ a.m = b.m ∧ a.d = b.d) := by
  obtain ⟨ay, am, ad⟩ := a
  obtain ⟨by2, bm, bd⟩ := b
  simp [Date.mk.injEq]

lemma Date.lt_trichotomy (a b : Date) : Date.lt a b ∨ a = b ∨ Date.lt b a := by
  rw [Date.eq_iff_fields]
  unfold Date.lt
  omega

lemma Date.lt_iff_dayNum {a b : Date} (ha : a.Valid) (hb : b.Valid) :
    Date.lt a b ↔ a.dayNum < b.dayNum := by
  constructor
  · exact Date.dayNum_lt_of_lt ha hb
  · intro h
    rcases Date.lt_trichotomy a b with h1 | h1 | h1
    · exact h1
    · rw [h1] at h; omega
    · have := Date.dayNum_lt_of_lt hb ha h1; omega

lemma Date.dayNum_inj {a b : Date} (ha : a.Valid) (hb : b.Valid)
    (h : a.dayNum = b.dayNum) : a = b := by
  rcases Date.lt_trichotomy a b with h1 | h1 | h1
  · have := Date.dayNum_lt_of_lt ha hb h1; omega
  · exact h1
  · have := Date.dayNum_lt_of_lt hb ha h1; omega

lemma Date.le_iff_dayNum {a b : Date} (ha : a.Valid) (hb : b.Valid) :
    Date.le a b ↔ a.dayNum ≤ b.dayNum := by
  unfold Date.le
  rw [Date.lt_iff_dayNum ha hb]
  constructor
  · rintro (h | h)
    · omega
    · rw [h]
  · intro h
    rcases Nat.lt_or_ge a.dayNum b.dayNum with h2 | h2
    · exact Or.inl h2
    · exact Or.inr (Date.dayNum_inj ha hb (by omega))

/-- Embedding of `chrono::NaiveTime` (nanoseconds are irrelevant to the engine
and are dropped). -/
structure Tod where
  hour : Nat
  minute : Nat
  second : Nat
deriving Repr, DecidableEq

def Tod.Valid (t : Tod) : Prop := t.hour < 24 ∧ t.minute < 60 ∧ t.second < 60

instance (t : Tod) : Decidable t.Valid := by
  unfold Tod.Valid; infer_instance

/-- Embedding of `ymdhms::Hms`: the packed time-of-day integers. -/
structure Hms where
  hhmmss : Nat
  hhmm : Nat
  hour : Nat
  minute : Nat
  second : Nat
deriving Repr, DecidableEq

/-- `Hms::from_hhmmss`. -/
def Hms.fromHhmmss (v : Nat) : Hms :=
  ⟨v, v / 100, v / 100 / 100, v / 100 % 100, v % 100⟩

/-- `Hms::from_hms`. -/
def Hms.fromHms (h mi s : Nat) : Hms :=
  ⟨(h * 100 + mi) * 100 + s, h * 100 + mi, h, mi, s⟩

/-- `impl<T: Timelike> From<&T> for Hms`. -/
def Hms.fromTod (t : Tod) : Hms := Hms.fromHms t.hour t.minute t.second

/-- `impl From<&Hms> for NaiveTime`. -/
def Hms.toTod (x : Hms) : Tod := ⟨x.hour, x.minute, x.second⟩

/-- Embedding of `ymdhms::TimeRangeHms` (the Rust field `end` is a Lean
keyword and is embedded as `stop`). -/
structure TimeRangeHms where
  start : Hms
  stop : Hms
deriving Repr, DecidableEq

/-- `TimeRangeHms::new`. -/
def TimeRangeHms.new (shhmmss ehhmmss : Nat) : TimeRangeHms :=
  ⟨Hms.fromHhmmss shhmmss, Hms.fromHhmmss ehhmmss⟩

/-- `TimeRangeHms::in_range`. -/
def TimeRangeHms.inRange (tr : TimeRangeHms) (hhmmss : Nat) : Bool :=
  let s := tr.start.hhmmss
  let e := tr.stop.hhmmss
  if s ≤ e then decide (s ≤ hhmmss ∧ hhmmss ≤ e)
  else decide ((s ≤ hhmmss ∧ hhmmss ≤ 235959) ∨ hhmmss ≤ e)

/-- `TimeRangeHms::in_range_time` (via `in_range_hms`). -/
def TimeRangeHms.inRangeTod (tr : TimeRangeHms) (t : Tod) : Bool :=
  tr.inRange (Hms.fromTod t).hhmmss

/-- Embedding of `ymdhms::Ymd`: the packed date integers. -/
structure Ymd where
  yyyymmdd : Nat
  year : Nat
  month : Nat
  day : Nat
deriving Repr, DecidableEq

/-- `Ymd::from_yyyymmdd`. -/
def Ymd.fromYyyymmdd (v : Nat) : Ymd :=
  ⟨v, v / 10000, v / 100 % 100, v % 100⟩

/-- `Ymd::from_ymd`. -/
def Ymd.fromYmd (y m d : Nat) : Ymd :=
  ⟨y * 10000 + m * 100 + d, y, m, d⟩

/-- `impl<T: Datelike> From<&T> for Ymd`. -/
def Ymd.fromDate (x : Date) : Ymd := Ymd.fromYmd x.y x.m x.d

/-- `impl From<&Ymd> for NaiveDate`. -/
def Ymd.toDate (v : Ymd) : Date := ⟨v.year, v.month, v.day⟩

/-- Shorthand for `Ymd::from(&date).yyyymmdd`, the hash-map key used by the
trading-day calendar. -/
def Date.key (x : Date) : Nat := (Ymd.fromDate x).yyyymmdd

/-- Embedding of `chrono::NaiveDateTime`. -/
structure DateTime where
  date : Date
  tod : Tod
deriving Repr, DecidableEq

def DateTime.Valid (dt : DateTime) : Prop := dt.date.Valid ∧ dt.tod.Valid

instance (dt : DateTime) : Decidable dt.Valid := by
  unfold DateTime.Valid; infer_instance

/-- `date.and_time(time)` / `date.and_hms(h, m, s)`. -/
def Date.andTime (x : Date) (t : Tod) : DateTime := ⟨x, t⟩

/-- `Hms::from(datetime)` (a `NaiveDateTime` is `Timelike`). -/
def DateTime.hms (dt : DateTime) : Hms := Hms.fromTod dt.tod

/-- `Ymd::from(datetime)` (a `NaiveDateTime` is `Datelike`). -/
def DateTime.ymd (dt : DateTime) : Ymd := Ymd.fromDate dt.date

/-- `datetime + Duration::minutes(1)` (seconds are preserved). -/
def DateTime.addOneMinute (dt : DateTime) : DateTime :=
  if dt.tod.minute < 59 then ⟨dt.date, ⟨dt.tod.hour, dt.tod.minute + 1, dt.tod.second⟩⟩
  else if dt.tod.hour < 23 then ⟨dt.date, ⟨dt.tod.hour + 1, 0, dt.tod.second⟩⟩
  else ⟨dt.date.succ, ⟨0, 0, dt.tod.second⟩⟩

/-- `datetime + Duration::minutes(n)` for `n ≥ 0`. -/
def DateTime.addMinutes (dt : DateTime) : Nat → DateTime
  | 0 => dt
  | n + 1 => (dt.addMinutes n).addOneMinute

/-- `datetime - Duration::minutes(1)` (seconds are preserved). -/
def DateTime.subOneMinute (dt : DateTime) : DateTime :=
  if 0 < dt.tod.minute then ⟨dt.date, ⟨dt.tod.hour, dt.tod.minute - 1, dt.tod.second⟩⟩
  else if 0 < dt.tod.hour then ⟨dt.date, ⟨dt.tod.hour - 1, 59, dt.tod.second⟩⟩
  else ⟨dt.date.pred, ⟨23, 59, dt.tod.second⟩⟩

/-- `datetime - Duration::minutes(n)` for `n ≥ 0`. -/
def DateTime.subMinutes (dt : DateTime) : Nat → DateTime
  | 0 => dt
  | n + 1 => (dt.subMinutes n).subOneMinute

/-- Lexicographic time-of-day order (`chrono` orders `NaiveTime` this way). -/
def Tod.lt (a b : Tod) : Prop :=
  a.hour < b.hour ∨ (a.hour = b.hour ∧
    (a.minute < b.minute ∨ (a.minute = b.minute ∧ a.second < b.second)))

instance (a b : Tod) : Decidable (Tod.lt a b) := by
  unfold Tod.lt; infer_instance

/-- `chrono` orders `NaiveDateTime` by date, then time. -/
def DateTime.lt (a b : DateTime) : Prop :=
  Date.lt a.date b.date ∨ (a.date = b.date ∧ Tod.lt a.tod b.tod)

instance (a b : DateTime) : Decidable (DateTime.lt a b) := by
  unfold DateTime.lt; infer_instance

def DateTime.le (a b : DateTime) : Prop := DateTime.lt a b ∨ a = b

instance (a b : DateTime) : Decidable (DateTime.le a b) := by
  unfold DateTime.le; infer_instance

/-- Second count of a date-time, the measure for date-time comparisons and
minute arithmetic. -/
def DateTime.toSec (dt : DateTime) : Nat :=
  dt.date.dayNum * 86400 + dt.tod.hour * 3600 + dt.tod.minute * 60 + dt.tod.second

lemma Tod.sec_lt_day {t : Tod} (h : t.Valid) :
    t.hour * 3600 + t.minute * 60 + t.second < 86400 := by
  obtain ⟨h1, h2, h3⟩ := h
  omega

lemma Tod.lt_cases (a b : Tod) : Tod.lt a b ∨ a = b ∨ Tod.lt b a := by
  obtain ⟨ah, am, as⟩ := a
  obtain ⟨bh, bm, bs⟩ := b
  simp only [Tod.lt, Tod.mk.injEq]
  omega

lemma DateTime.eq_iff_parts {a b : DateTime} :
    a = b ↔ (a.date = b.date ∧ a.tod = b.tod) := by
  obtain ⟨ad, at2⟩ := a
  obtain ⟨bd, bt⟩ := b
  simp [DateTime.mk.injEq]

lemma DateTime.lt_iff_toSec {a b : DateTime} (ha : a.Valid) (hb : b.Valid) :
    DateTime.lt a b ↔ a.toSec < b.toSec := by
  obtain ⟨had, hat⟩ := ha
  obtain ⟨hbd, hbt⟩ := hb
  obtain ⟨a1, a2, a3⟩ := hat
  obtain ⟨b1, b2, b3⟩ := hbt
  constructor
  · rintro (hd | ⟨heq, ht⟩)
    · have h1 := Date.dayNum_lt_of_lt had hbd hd
      unfold DateTime.toSec
      omega
    · unfold DateTime.toSec
      rw [heq]
      rcases ht with h | ⟨he1, h⟩
      · omega
      · rcases h with h | ⟨he2, h⟩ <;> omega
  · intro h
    rcases Date.lt_trichotomy a.date b.date with hd | hd | hd
    · exact Or.inl hd
    · right
      refine ⟨hd, ?_⟩
      rcases Tod.lt_cases a.tod b.tod with ht | ht | ht
      · exact ht
      · exfalso
        unfold DateTime.toSec at h
        rw [hd, ht] at h
        omega
      · exfalso
        unfold DateTime.toSec at h
        rw [hd] at h
        rcases ht with h2 | ⟨he1, h2⟩
        · omega
        · rcases h2 with h2 | ⟨he2, h2⟩ <;> omega
    · exfalso
      have h1 := Date.dayNum_lt_of_lt hbd had hd
      unfold DateTime.toSec at h
      omega

lemma Tod.eq_iff_comps {a b : Tod} :
    a = b ↔ (a.hour = b.hour ∧ a.minute = b.minute ∧ a.second = b.second) := by
  obtain ⟨ah, am, az⟩ := a
  obtain ⟨bh, bm, bz⟩ := b
  simp [Tod.mk.injEq]

lemma DateTime.toSec_inj {a b : DateTime} (ha : a.Valid) (hb : b.Valid)
    (h : a.toSec = b.toSec) : a = b := by
  obtain ⟨had, hat⟩ := ha
  obtain ⟨hbd, hbt⟩ := hb
  obtain ⟨a1, a2, a3⟩ := hat
  obtain ⟨b1, b2, b3⟩ := hbt
  have hd : a.date.dayNum = b.date.dayNum := by
    unfold DateTime.toSec at h
    omega
  have hdd : a.date = b.date := Date.dayNum_inj had hbd hd
  rw [DateTime.eq_iff_parts]
  refine ⟨hdd, ?_⟩
  unfold DateTime.toSec at h
  rw [hdd] at h
  rw [Tod.eq_iff_comps]
  omega

lemma DateTime.le_iff_toSec {a b : DateTime} (ha : a.Valid) (hb : b.Valid) :
    DateTime.le a b ↔ a.toSec ≤ b.toSec := by
  unfold DateTime.le
  rw [DateTime.lt_iff_toSec ha hb]
  constructor
  · rintro (h | h)
    · omega
    · rw [h]
  · intro h
    rcases Nat.lt_or_ge a.toSec b.toSec with h2 | h2
    · exact Or.inl h2
    · exact Or.inr (DateTime.toSec_inj ha hb (by omega))

lemma DateTime.addOneMinute_spec {dt : DateTime} (h : dt.Valid) :
    (dt.addOneMinute).Valid ∧ (dt.addOneMinute).toSec = dt.toSec + 60 ∧
      (dt.addOneMinute).tod.second = dt.tod.second := by
  obtain ⟨hd, ht⟩ := h
  obtain ⟨h1, h2, h3⟩ := ht
  unfold DateTime.addOneMinute
  split
  · exact ⟨⟨hd, by constructor <;> simp <;> omega⟩, by unfold DateTime.toSec; simp; omega, rfl⟩
  · split
    · exact ⟨⟨hd, by constructor <;> simp <;> omega⟩, by unfold DateTime.toSec; simp; omega, rfl⟩
    · refine ⟨⟨Date.valid_succ hd, by constructor <;> simp <;> omega⟩, ?_, rfl⟩
      unfold DateTime.toSec
      simp only [Date.dayNum_succ hd]
      omega

lemma DateTime.addMinutes_spec {dt : DateTime} (h : dt.Valid) (n : Nat) :
    (dt.addMinutes n).Valid ∧ (dt.addMinutes n).toSec = dt.toSec + 60 * n ∧
      (dt.addMinutes n).tod.second = dt.tod.second := by
  induction n with
  | zero => exact ⟨h, by show dt.toSec = dt.toSec + 60 * 0; omega, rfl⟩
  | succ k ih =>
      obtain ⟨hv, hs, hsec⟩ := ih
      obtain ⟨hv2, hs2, hsec2⟩ := DateTime.addOneMinute_spec hv
      have hstep : dt.addMinutes (k + 1) = (dt.addMinutes k).addOneMinute := rfl
      rw [hstep]
      exact ⟨hv2, by omega, by omega⟩

lemma DateTime.subOneMinute_spec {dt : DateTime} (h : dt.Valid) (h0 : 60 ≤ dt.toSec) :
    (dt.subOneMinute).Valid ∧ (dt.subOneMinute).toSec + 60 = dt.toSec ∧
      (dt.subOneMinute).tod.second = dt.tod.second := by
  obtain ⟨hd, ht⟩ := h
  obtain ⟨h1, h2, h3⟩ := ht
  unfold DateTime.subOneMinute
  split
  · exact ⟨⟨hd, by constructor <;> simp <;> omega⟩, by unfold DateTime.toSec at h0 ⊢; simp; omega, rfl⟩
  · split
    · exact ⟨⟨hd, by constructor <;> simp <;> omega⟩, by unfold DateTime.toSec at h0 ⊢; simp; omega, rfl⟩
    · have hmi : dt.tod.minute = 0 := by omega
      have hh : dt.tod.hour = 0 := by omega
      have hday : 1 ≤ dt.date.dayNum := by
        unfold DateTime.toSec at h0
        omega
      obtain ⟨hpv, hpd⟩ := Date.valid_pred hd hday
      refine ⟨⟨hpv, by constructor <;> simp <;> omega⟩, ?_, rfl⟩
      unfold DateTime.toSec at h0 ⊢
      simp only
      omega

lemma DateTime.subMinutes_spec {dt : DateTime} (h : dt.Valid) {n : Nat}
    (h0 : 60 * n ≤ dt.toSec) :
    (dt.subMinutes n).Valid ∧ (dt.subMinutes n).toSec + 60 * n = dt.toSec ∧
      (dt.subMinutes n).tod.second = dt.tod.second := by
  induction n with
  | zero => exact ⟨h, by show dt.toSec + 60 * 0 = dt.toSec; omega, rfl⟩
  | succ k ih =>
      obtain ⟨hv, hs, hsec⟩ := ih (by omega)
      obtain ⟨hv2, hs2, hsec2⟩ := DateTime.subOneMinute_spec hv (by omega)
      have hstep : dt.subMinutes (k + 1) = (dt.subMinutes k).subOneMinute := rfl
      rw [hstep]
      exact ⟨hv2, by omega, by omega⟩

lemma DateTime.minute_addOneMinute {dt : DateTime} (h : dt.tod.minute < 60) :
    (dt.addOneMinute).tod.minute = (dt.tod.minute + 1) % 60 ∧
      (dt.addOneMinute).tod.minute < 60 := by
  unfold DateTime.addOneMinute
  split
  · simp only
    omega
  · split <;> simp only <;> omega

lemma DateTime.minute_addMinutes {dt : DateTime} (h : dt.tod.minute < 60) (n : Nat) :
    (dt.addMinutes n).tod.minute = (dt.tod.minute + n) % 60 := by
  induction n with
  | zero => show dt.tod.minute = (dt.tod.minute + 0) % 60; omega
  | succ k ih =>
      have hlt : (dt.addMinutes k).tod.minute < 60 := by rw [ih]; omega
      obtain ⟨he, _⟩ := DateTime.minute_addOneMinute hlt
      have hstep : dt.addMinutes (k + 1) = (dt.addMinutes k).addOneMinute := rfl
      rw [hstep, he, ih]
      omega

/-- Embedding of `klinetime::KLineTimeError`.  `panicked` stands for a Rust
panic (an `unwrap` of absent data), which has no error variant in the source. -/
inductive KLineTimeError where
  | NextTradingDay (day : Nat)
  | PrevTradingDay (day : Nat)
  | BreedVecEmpty
  | TxTimeRangeDataEmpty
  | BreedNotExist (breed scope : String)
  | PeriodNotExist (period scope : String)
  | PeriodNotSupport (period scope : String)
  | DatetimeNotInRange (breed : String) (datetime : DateTime)
  | DatetimeNotSupport (datetime : DateTime)
  | WeekNotHadTxDay (datetime : DateTime)
  | panicked
deriving Repr, DecidableEq

/-- Embedding of `trading_day::DayInfo`. -/
structure DayInfo where
  is_td : Bool
  prev_idx : Nat
  idx : Nat
  next_idx : Nat
  has_night : Bool
deriving Repr, DecidableEq

/-- Embedding of `trading_day::TradingDayUtilInitError` (the `Sqlx` variant is
transport-level and out of scope). -/
inductive TradingDayUtilInitError where
  | Empty
deriving Repr, DecidableEq

/-- The date denoted by a `yyyymmdd` key (`NaiveDate::from(&Ymd::from(item))`). -/
def dateOfKey (v : Nat) : Date := Ymd.toDate (Ymd.fromYyyymmdd v)

/-- Embedding of `trading_day::TradingDayUtil`: the immutable calendar
snapshot.  `day_info_map` is the hash map embedded as an association list
(first match wins; the construction inserts every key at most once). -/
structure TradingDayUtil where
  td_vec : List Ymd
  day_info_map : List (Nat × DayInfo)
deriving Repr

/-- First loop of `TradingDayUtil::init_from_db`: one `DayInfo` per trading
day row.  `idx` is the running index and `prevDate` the previous row's date.
The source computes `date - prev_date == Duration::days(1 or 3)`; on the
day-count measure this is `dayNum = prev.dayNum + 1 ∨ dayNum = prev.dayNum + 3`
(a negative chrono difference never equals a positive `Duration::days`). -/
def TradingDayUtil.tdEntries : List Nat → Nat → Option Date → List (Nat × DayInfo)
  | [], _, _ => []
  | v :: rest, idx, prevDate =>
    let date := dateOfKey v
    let hasNight : Bool :=
      match prevDate with
      | some p => decide (date.dayNum = p.dayNum + 1 ∨ date.dayNum = p.dayNum + 3)
      | none => true
    (v, ⟨true, idx - 1, idx, idx + 1, hasNight⟩) ::
      TradingDayUtil.tdEntries rest (idx + 1) (some date)

/-- Second loop of `TradingDayUtil::init_from_db`: walk every calendar date
from the first trading day to the last (exclusive) and synthesize an entry
for each date that is not a trading day.  `fuel` is the number of remaining
iterations (`end_date.dayNum - date.dayNum`), `idx` the running counter.  The
`or_insert_with` membership test of the source is equivalent to a membership
test against the trading-day keys, because iterated keys strictly increase so
a previously inserted synthetic key is never met again. -/
def TradingDayUtil.backfill (tdKeys : List Nat) : Date → Nat → Nat → List (Nat × DayInfo)
  | _, 0, _ => []
  | date, fuel + 1, idx =>
    if tdKeys.contains date.key then
      TradingDayUtil.backfill tdKeys date.succ fuel (idx + 1)
    else
      (date.key, ⟨false, idx - 1, idx, idx, false⟩) ::
        TradingDayUtil.backfill tdKeys date.succ fuel idx

/-- Embedding of `TradingDayUtil::init_from_db`, with the stream of database
rows (ordered `yyyymmdd` values) as input. -/
def TradingDayUtil.init_from_db (tds : List Nat) :
    Except TradingDayUtilInitError TradingDayUtil :=
  match tds with
  | [] => .error .Empty
  | v :: rest =>
    let firstDate := dateOfKey v
    let endDate := dateOfKey (rest.getLastD v)
    let fuel := endDate.dayNum - firstDate.dayNum
    .ok ⟨(v :: rest).map Ymd.fromYyyymmdd,
      TradingDayUtil.tdEntries (v :: rest) 0 none ++
        TradingDayUtil.backfill (v :: rest) firstDate fuel 0⟩

/-- `day_info_map.get(day)`. -/
def TradingDayUtil.get (u : TradingDayUtil) (day : Nat) : Option DayInfo :=
  u.day_info_map.lookup day

/-- `TradingDayUtil::is_td`. -/
def TradingDayUtil.is_td (u : TradingDayUtil) (day : Nat) : Bool :=
  (u.get day).elim false (fun v => v.is_td)

/-- `TradingDayUtil::prev`. -/
def TradingDayUtil.prev (u : TradingDayUtil) (day : Nat) : Except KLineTimeError Ymd :=
  match u.get day with
  | some v =>
    if v.idx = 0 then .error (.PrevTradingDay day)
    else
      match u.td_vec.get? v.prev_idx with
      | some t => .ok t
      | none => .error (.PrevTradingDay day)
  | none => .error (.PrevTradingDay day)

/-- `TradingDayUtil::next`. -/
def TradingDayUtil.next (u : TradingDayUtil) (day : Nat) : Except KLineTimeError Ymd :=
  match u.get day with
  | some v =>
    match u.td_vec.get? v.next_idx with
    | some t => .ok t
    | none => .error (.NextTradingDay day)
  | none => .error (.NextTradingDay day)

/-- `TradingDayUtil::has_night`. -/
def TradingDayUtil.has_night (u : TradingDayUtil) (day : Nat) : Bool :=
  (u.get day).elim false (fun v => v.has_night)

/-- `TradingDayUtil::trading_day_from_datetime`. -/
def TradingDayUtil.trading_day_from_datetime (u : TradingDayUtil) (dt : DateTime) :
    Except KLineTimeError Ymd :=
  let ymd := dt.ymd
  let hh := dt.tod.hour
  if 9 ≤ hh ∧ hh ≤ 15 then .ok ymd
  else if 21 ≤ hh then u.next ymd.yyyymmdd
  else if hh ≤ 2 then
    (u.prev ymd.yyyymmdd).bind (fun prevTd => u.next prevTd.yyyymmdd)
  else .error (.DatetimeNotSupport dt)

lemma daysInMonth_le_31 (y m : Nat) : daysInMonth y m ≤ 31 := by
  unfold daysInMonth
  split <;> first | omega | (split <;> omega)

lemma Date.key_lt_of_lt {a b : Date} (ha : a.Valid) (hb : b.Valid)
    (h : Date.lt a b) : a.key < b.key := by
  obtain ⟨ha1, ha2, ha3, ha4, ha5⟩ := ha
  obtain ⟨hb1, hb2, hb3, hb4, hb5⟩ := hb
  have hda := daysInMonth_le_31 a.y a.m
  have hdb := daysInMonth_le_31 b.y b.m
  unfold Date.key Ymd.fromDate Ymd.fromYmd
  simp only
  unfold Date.lt at h
  omega

lemma Date.key_lt_iff {a b : Date} (ha : a.Valid) (hb : b.Valid) :
    Date.lt a b ↔ a.key < b.key := by
  constructor
  · exact Date.key_lt_of_lt ha hb
  · intro h
    rcases Date.lt_trichotomy a b with h1 | h1 | h1
    · exact h1
    · rw [h1] at h; omega
    · have := Date.key_lt_of_lt hb ha h1; omega

lemma Date.key_inj {a b : Date} (ha : a.Valid) (hb : b.Valid)
    (h : a.key = b.key) : a = b := by
  rcases Date.lt_trichotomy a b with h1 | h1 | h1
  · have := Date.key_lt_of_lt ha hb h1; omega
  · exact h1
  · have := Date.key_lt_of_lt hb ha h1; omega

lemma key_dateOfKey (v : Nat) : (dateOfKey v).key = v := by
  unfold dateOfKey Date.key Ymd.fromDate Ymd.fromYmd Ymd.toDate Ymd.fromYyyymmdd
  simp only
  omega

lemma Date.key_lt_succ_iff {c d : Date} (hc : c.Valid) (hd : d.Valid) :
    (c.key < d.succ.key ↔ (c.key < d.key ∨ c.key = d.key)) := by
  have hsv := Date.valid_succ hd
  have hsn := Date.dayNum_succ hd
  constructor
  · intro h
    have hlt : Date.lt c d.succ := by
      rcases Date.lt_trichotomy c d.succ with h1 | h1 | h1
      · exact h1
      · rw [h1] at h; omega
      · have := Date.key_lt_of_lt hsv hc h1; omega
    have hdn := Date.dayNum_lt_of_lt hc hsv hlt
    rw [hsn] at hdn
    rcases Nat.lt_or_ge c.dayNum d.dayNum with h2 | h2
    · exact Or.inl (Date.key_lt_of_lt hc hd ((Date.lt_iff_dayNum hc hd).mpr h2))
    · have : c = d := Date.dayNum_inj hc hd (by omega)
      exact Or.inr (by rw [this])
  · intro h
    have hlt : Date.lt c d.succ := by
      rw [Date.lt_iff_dayNum hc hsv, hsn]
      rcases h with h | h
      · have : Date.lt c d := by
          rcases Date.lt_trichotomy c d with h1 | h1 | h1
          · exact h1
          · rw [h1] at h; omega
          · have := Date.key_lt_of_lt hd hc h1; omega
        have := Date.dayNum_lt_of_lt hc hd this
        omega
      · have : c = d := Date.key_inj hc hd h
        rw [this]
        omega
    exact Date.key_lt_of_lt hc hsv hlt

lemma lookup_append {α β : Type} [BEq α] (l1 l2 : List (α × β)) (k : α) :
    (l1 ++ l2).lookup k = ((l1.lookup k).or (l2.lookup k)) := by
  induction l1 with
  | nil => simp [List.lookup]
  | cons a t ih =>
      obtain ⟨a1, a2⟩ := a
      simp only [List.cons_append, List.lookup]
      split <;> simp [ih]

/-- The previous-row date that the first `init_from_db` loop carries when it
reaches index `i`, starting from carried state `p`. -/
def tdPrevOf (tds : List Nat) (p : Option Date) : Nat → Option Date
  | 0 => p
  | j + 1 => (tds.get? j).map dateOfKey

/-- The night flag a trading-day row receives, given the previous row's date. -/
def nightFlag (p : Option Date) (v : Nat) : Bool :=
  match p with
  | some pd =>
    decide ((dateOfKey v).dayNum = pd.dayNum + 1 ∨ (dateOfKey v).dayNum = pd.dayNum + 3)
  | none => true

lemma tdPrevOf_cons (v0 : Nat) (rest : List Nat) (p : Option Date) (j : Nat) :
    tdPrevOf (v0 :: rest) p (j + 1) = tdPrevOf rest (some (dateOfKey v0)) j := by
  cases j with
  | zero => simp [tdPrevOf]
  | succ j2 => simp [tdPrevOf]

lemma tdEntries_is_td : ∀ (tds : List Nat) (idx : Nat) (p : Option Date) (k : Nat)
    (e : DayInfo), (TradingDayUtil.tdEntries tds idx p).lookup k = some e →
    e.is_td = true := by
  intro tds
  induction tds with
  | nil => intro idx p k e h; simp [TradingDayUtil.tdEntries, List.lookup] at h
  | cons v0 rest ih =>
      intro idx p k e h
      simp only [TradingDayUtil.tdEntries, List.lookup] at h
      split at h
      · cases h; rfl
      · exact ih _ _ _ _ h

lemma tdEntries_lookup : ∀ (tds : List Nat) (idx0 : Nat) (p : Option Date)
    (i : Nat) (v : Nat), List.Sorted (· < ·) tds → tds.get? i = some v →
    (TradingDayUtil.tdEntries tds idx0 p).lookup v =
      some ⟨true, idx0 + i - 1, idx0 + i, idx0 + i + 1,
        nightFlag (tdPrevOf tds p i) v⟩ := by
  intro tds
  induction tds with
  | nil => intro idx0 p i v _ h; simp at h
  | cons v0 rest ih =>
      intro idx0 p i v hsort hget
      cases i with
      | zero =>
          simp only [List.get?] at hget
          cases hget
          simp [TradingDayUtil.tdEntries, List.lookup, tdPrevOf, nightFlag]
      | succ j =>
          simp only [List.get?] at hget
          have hmem : v ∈ rest := List.get?_mem hget
          have hlt : v0 < v := (List.sorted_cons.mp hsort).1 v hmem
          have hne : (v == v0) = false := by
            simp only [beq_eq_false_iff_ne, ne_eq]
            omega
          simp only [TradingDayUtil.tdEntries, List.lookup, hne]
          rw [tdPrevOf_cons]
          have := ih (idx0 + 1) (some (dateOfKey v0)) j v
            (List.sorted_cons.mp hsort).2 hget
          rw [this]
          congr 1
          have h1 : idx0 + 1 + j - 1 = idx0 + (j + 1) - 1 := by omega
          have h2 : idx0 + 1 + j = idx0 + (j + 1) := by omega
          rw [h1, h2]

lemma countP_lt_succ_key {l : List Nat} {d : Date} (hd : d.Valid)
    (hval : ∀ t ∈ l, ∃ dt : Date, dt.Valid ∧ dt.key = t) (hnd : l.Nodup) :
    l.countP (fun t => decide (t < d.succ.key)) =
      l.countP (fun t => decide (t < d.key)) + (if d.key ∈ l then 1 else 0) := by
  induction l with
  | nil => simp
  | cons t0 rest ih =>
      obtain ⟨dt0, hdt0v, hdt0k⟩ := hval t0 (by simp)
      have hiff := Date.key_lt_succ_iff hdt0v hd
      rw [hdt0k] at hiff
      have hrest := ih (fun t ht => hval t (by simp [ht])) hnd.of_cons
      have ht0 : t0 ∉ rest := (List.nodup_cons.mp hnd).1
      simp only [List.countP_cons, hrest, List.mem_cons]
      by_cases he : d.key = t0
      · subst he
        have h1 : decide (d.key < d.succ.key) = true := by
          rw [decide_eq_true_eq]; exact hiff.mpr (Or.inr rfl)
        have h2 : decide (d.key < d.key) = false := by simp
        simp [h1, h2, ht0]
      · have h3 : decide (t0 < d.succ.key) = decide (t0 < d.key) := by
          by_cases h4 : t0 < d.key
          · simp [h4, hiff.mpr (Or.inl h4)]
          · have h5 : ¬ t0 < d.succ.key := by
              intro hc
              rcases hiff.mp hc with hh | hh
              · exact h4 hh
              · exact he hh.symm
            simp [h4, h5]
        have h6 : (d.key = t0 ∨ d.key ∈ rest) ↔ d.key ∈ rest := by
          constructor
          · rintro (hh | hh)
            · exact absurd hh he
            · exact hh
          · exact Or.inr
        rw [h3, if_congr h6 rfl rfl]
        omega

lemma backfill_lookup : ∀ (fuel : Nat) (tdKeys : List Nat) (d : Date) (idx : Nat)
    (k : Nat) (info : DayInfo),
    d.Valid →
    List.Sorted (· < ·) tdKeys →
    (∀ t ∈ tdKeys, ∃ dt : Date, dt.Valid ∧ dt.key = t) →
    idx = tdKeys.countP (fun t => decide (t < d.key)) →
    (TradingDayUtil.backfill tdKeys d fuel idx).lookup k = some info →
    k ∉ tdKeys ∧
      info = ⟨false, tdKeys.countP (fun t => decide (t < k)) - 1,
        tdKeys.countP (fun t => decide (t < k)),
        tdKeys.countP (fun t => decide (t < k)), false⟩ := by
  intro fuel
  induction fuel with
  | zero =>
      intro tdKeys d idx k info _ _ _ _ h
      simp [TradingDayUtil.backfill, List.lookup] at h
  | succ f ih =>
      intro tdKeys d idx k info hdv hsort hval hidx h
      have hnd : tdKeys.Nodup := hsort.nodup
      have hcount := countP_lt_succ_key hdv hval hnd
      simp only [TradingDayUtil.backfill] at h
      split at h
      · have hmem : d.key ∈ tdKeys := by
          simp only [List.contains] at *
          exact List.elem_iff.mp (by assumption)
        exact ih tdKeys d.succ (idx + 1) k info (Date.valid_succ hdv) hsort hval
          (by rw [hcount, if_pos hmem]; omega) h
      · have hnmem : d.key ∉ tdKeys := by
          intro hc
          have := List.elem_iff.mpr hc
          simp only [List.contains] at *
          simp_all
        simp only [List.lookup] at h
        rcases hbeq : (k == d.key) with hfalse | htrue
        · rw [hbeq] at h
          exact ih tdKeys d.succ idx k info (Date.valid_succ hdv) hsort hval
            (by rw [hcount, if_neg hnmem]; omega) h
        · rw [hbeq] at h
          have hk : k = d.key := by simpa using hbeq
          cases h
          subst hk
          exact ⟨hnmem, by rw [hidx]⟩

lemma sorted_get_countP {l : List Nat} (hs : List.Sorted (· < ·) l) (k : Nat)
    (hk : k ∉ l) :
    l.get? (l.countP (fun t => decide (t < k))) = l.find? (fun t => decide (k < t)) := by
  induction l with
  | nil => simp
  | cons t0 rest ih =>
      have hrest := ih (List.sorted_cons.mp hs).2 (fun hc => hk (by simp [hc]))
      have hne : t0 ≠ k := fun hc => hk (by simp [hc])
      by_cases h0 : t0 < k
      · have hd1 : decide (t0 < k) = true := by simp [h0]
        have hd2 : decide (k < t0) = false := by simp; omega
        simp only [List.countP_cons, hd1, List.find?, hd2, if_true]
        simpa using hrest
      · have hgt : k < t0 := by omega
        have hd1 : decide (t0 < k) = false := by simp; omega
        have hd2 : decide (k < t0) = true := by simp [hgt]
        have hzero : rest.countP (fun t => decide (t < k)) = 0 := by
          rw [List.countP_eq_zero]
          intro a ha
          have := (List.sorted_cons.mp hs).1 a ha
          simp
          omega
        simp only [List.countP_cons, hd1, List.find?, hd2, hzero, if_false]
        simp

/-- CLAIM C5 / C9 / C1 fixture: the June 2022 trading-day calendar slice used
by the repository's own tests (2022-06-03 to 2022-06-05 and weekends are
holidays). -/
def juneTds : List Nat :=
  [20220531, 20220601, 20220602, 20220606, 20220607, 20220608,
   20220609, 20220610, 20220613]

/-- The calendar snapshot built from `juneTds`. -/
def juneCal : TradingDayUtil :=
  (TradingDayUtil.init_from_db juneTds).toOption.getD ⟨[], []⟩

/-- C5: `next` and `prev` of the constructed calendar are mutually inverse on
interior trading days. -/
theorem c5_prev_next_inverse (tds : List Nat) (u : TradingDayUtil)
    (hsort : List.Sorted (· < ·) tds)
    (hinit : TradingDayUtil.init_from_db tds = .ok u)
    (i v : Nat) (hv : tds.get? i = some v) (h0 : 0 < i) (h1 : i + 1 < tds.length) :
    (∃ p, u.prev v = .ok p ∧ u.next p.yyyymmdd = .ok (Ymd.fromYyyymmdd v)) ∧
    (∃ n, u.next v = .ok n ∧ u.prev n.yyyymmdd = .ok (Ymd.fromYyyymmdd v)) := by
  cases tds with
  | nil => simp at hv
  | cons v0 rest =>
    simp only [TradingDayUtil.init_from_db] at hinit
    cases hinit
    have hlen : i + 1 < (v0 :: rest).length := h1
    have hprev_lt : i - 1 < (v0 :: rest).length := by omega
    have hnext_lt : i + 1 < (v0 :: rest).length := h1
    obtain ⟨w, hw⟩ : ∃ w, (v0 :: rest).get? (i - 1) = some w :=
      ⟨(v0 :: rest).get ⟨i - 1, hprev_lt⟩, List.get?_eq_get hprev_lt⟩
    obtain ⟨n, hn⟩ : ∃ n, (v0 :: rest).get? (i + 1) = some n :=
      ⟨(v0 :: rest).get ⟨i + 1, hnext_lt⟩, List.get?_eq_get hnext_lt⟩
    have hlv := tdEntries_lookup (v0 :: rest) 0 none i v hsort hv
    have hlw := tdEntries_lookup (v0 :: rest) 0 none (i - 1) w hsort hw
    have hln := tdEntries_lookup (v0 :: rest) 0 none (i + 1) n hsort hn
    simp only [Nat.zero_add] at hlv hlw hln
    have ei1 : i - 1 + 1 = i := by omega
    have ei2 : i + 1 - 1 = i := by omega
    rw [ei1] at hlw
    rw [ei2] at hln
    have hget : ∀ (k : Nat) (e : DayInfo),
        (TradingDayUtil.tdEntries (v0 :: rest) 0 none).lookup k = some e →
        TradingDayUtil.get
          ⟨(v0 :: rest).map Ymd.fromYyyymmdd,
            TradingDayUtil.tdEntries (v0 :: rest) 0 none ++
              TradingDayUtil.backfill (v0 :: rest) (dateOfKey v0)
                ((dateOfKey (rest.getLastD v0)).dayNum - (dateOfKey v0).dayNum) 0⟩
          k = some e := by
      intro k e he
      unfold TradingDayUtil.get
      simp only
      rw [lookup_append, he]
      rfl
    constructor
    · refine ⟨Ymd.fromYyyymmdd w, ?_, ?_⟩
      · simp only [TradingDayUtil.prev, hget v _ hlv]
        rw [if_neg (by omega : ¬ (i = 0))]
        simp only [List.get?_map, hw]
        rfl
      · have hwk : (Ymd.fromYyyymmdd w).yyyymmdd = w := rfl
        simp only [TradingDayUtil.next, hwk, hget w _ hlw]
        simp only [List.get?_map, hv]
        rfl
    · refine ⟨Ymd.fromYyyymmdd n, ?_, ?_⟩
      · simp only [TradingDayUtil.next, hget v _ hlv]
        simp only [List.get?_map, hn]
        rfl
      · have hnk : (Ymd.fromYyyymmdd n).yyyymmdd = n := rfl
        simp only [TradingDayUtil.prev, hnk, hget n _ hln]
        rw [if_neg (by omega : ¬ (i + 1 = 0))]
        simp only [List.get?_map, ei2, hv]
        rfl

/-- Witness for C5 at the concrete June 2022 calendar, `d = 2022-06-07`. -/
theorem c5_prev_next_inverse_witness :
    (∃ p, juneCal.prev 20220607 = .ok p ∧
      juneCal.next p.yyyymmdd = .ok (Ymd.fromYyyymmdd 20220607)) ∧
    (∃ n, juneCal.next 20220607 = .ok n ∧
      juneCal.prev n.yyyymmdd = .ok (Ymd.fromYyyymmdd 20220607)) :=
  c5_prev_next_inverse juneTds juneCal (by decide) (by rfl) 4 20220607 (by rfl)
    (by decide) (by decide)

/-- C9: invariants of the calendar snapshot built by `init_from_db`: a trading
day's `has_night` flag is set exactly by the 1-or-3-day gap rule (the earliest
day defaulting to `true`), and every synthesized non-trading-day entry has
`has_night = false` and points at the next trading day (`idx = next_idx` is
the index of the first trading day after it). -/
theorem c9_init_from_db_invariants (tds : List Nat) (u : TradingDayUtil)
    (hsort : List.Sorted (· < ·) tds)
    (hval : ∀ t ∈ tds, (dateOfKey t).Valid)
    (hinit : TradingDayUtil.init_from_db tds = .ok u) :
    (∀ i v, tds.get? i = some v →
      u.get v = some ⟨true, i - 1, i, i + 1, nightFlag (tdPrevOf tds none i) v⟩) ∧
    (∀ k info, u.get k = some info → info.is_td = false →
      info.has_night = false ∧ info.next_idx = info.idx ∧
        u.td_vec.get? info.idx =
          (tds.find? (fun t => decide (k < t))).map Ymd.fromYyyymmdd) := by
  cases tds with
  | nil => simp [TradingDayUtil.init_from_db] at hinit
  | cons v0 rest =>
    simp only [TradingDayUtil.init_from_db] at hinit
    cases hinit
    constructor
    · intro i v hv
      have hl := tdEntries_lookup (v0 :: rest) 0 none i v hsort hv
      simp only [Nat.zero_add] at hl
      simp only [TradingDayUtil.get]
      rw [lookup_append, hl]
      rfl
    · intro k info hk htd
      simp only [TradingDayUtil.get] at hk
      rw [lookup_append] at hk
      rcases he : (TradingDayUtil.tdEntries (v0 :: rest) 0 none).lookup k with _ | e
      · rw [he] at hk
        simp only [Option.or] at hk
        have hbf := backfill_lookup
          ((dateOfKey (rest.getLastD v0)).dayNum - (dateOfKey v0).dayNum)
          (v0 :: rest) (dateOfKey v0) 0 k info
          (hval v0 (by simp))
          hsort
          (fun t ht => ⟨dateOfKey t, hval t ht, key_dateOfKey t⟩)
          (by
            rw [key_dateOfKey]
            symm
            rw [List.countP_eq_zero]
            intro a ha
            simp only [decide_eq_true_eq]
            rcases List.mem_cons.mp ha with h | h
            · omega
            · have := (List.sorted_cons.mp hsort).1 a h
              omega)
          hk
        obtain ⟨hnm, hinfo⟩ := hbf
        subst hinfo
        refine ⟨rfl, rfl, ?_⟩
        simp only [List.get?_map]
        rw [sorted_get_countP hsort k hnm]
      · rw [he] at hk
        simp only [Option.or] at hk
        injection hk with hk2
        subst hk2
        have hti := tdEntries_is_td (v0 :: rest) 0 none k e he
        rw [hti] at htd
        simp at htd

/-- Witness for C9: the June 2022 calendar; `2022-06-06` is a trading day
whose gap to `2022-06-02` is four days (flag false), `2022-06-12` is a
synthesized Sunday entry owned by `2022-06-13`. -/
theorem c9_init_from_db_invariants_witness :
    juneCal.get 20220606 =
      some ⟨true, 2, 3, 4, nightFlag (tdPrevOf juneTds none 3) 20220606⟩ ∧
    (false = false ∧ (8 : Nat) = 8 ∧
      juneCal.td_vec.get? 8 =
        (juneTds.find? (fun t => decide (20220612 < t))).map Ymd.fromYyyymmdd) := by
  have h := c9_init_from_db_invariants juneTds juneCal (by decide)
    (by decide) (by rfl)
  exact ⟨h.1 3 20220606 (by rfl),
    h.2 20220612 ⟨false, 7, 8, 8, false⟩ (by rfl) rfl⟩

/-- C10: `trading_day_from_datetime` maps hours 9–15 to the plain calendar
date, hours ≥ 21 to the next trading day, hours ≤ 2 to the next trading day
of the previous trading day, and fails with `DatetimeNotSupport` exactly for
hours 3–8 and 16–20. -/
theorem c10_trading_day_from_datetime_cases (u : TradingDayUtil) (dt : DateTime) :
    u.trading_day_from_datetime dt =
      (if 3 ≤ dt.tod.hour ∧ dt.tod.hour ≤ 8 ∨ 16 ≤ dt.tod.hour ∧ dt.tod.hour ≤ 20
        then .error (.DatetimeNotSupport dt)
      else if 9 ≤ dt.tod.hour ∧ dt.tod.hour ≤ 15 then .ok dt.ymd
      else if 21 ≤ dt.tod.hour then u.next dt.ymd.yyyymmdd
      else (u.prev dt.ymd.yyyymmdd).bind (fun p => u.next p.yyyymmdd)) := by
  simp only [TradingDayUtil.trading_day_from_datetime]
  split_ifs <;> first | rfl | (exfalso; omega)

/-- `Hms` equality as the source's `PartialEq` implements it: by `hhmmss`. -/
def Hms.eqv (a b : Hms) : Bool := a.hhmmss == b.hhmmss

/-- The `tr_vec` of `From<TxTimeRangeDbItem>`: consecutive `(open, close)`
pairs of `hhmm` values, each scaled by 100 into `hhmmss`. -/
def mkRanges : List Nat → List TimeRangeHms
  | a :: b :: rest => TimeRangeHms.new (a * 100) (b * 100) :: mkRanges rest
  | _ => []

/-- The `tr_vec_fix` of `From<TxTimeRangeDbItem>`: like `mkRanges`, but when
`need_fix` holds the leading (midnight-wrapping) pair is split into
`[open, 23:59:59]` and `[00:00:00, close]`. -/
def mkRangesFix (need_fix : Bool) : List Nat → List TimeRangeHms
  | a :: b :: rest =>
    if need_fix then
      TimeRangeHms.new (a * 100) 235959 :: TimeRangeHms.new 0 (b * 100) :: mkRanges rest
    else
      TimeRangeHms.new (a * 100) (b * 100) :: mkRanges rest
  | _ => []

/-- The key set of `range_end_hmap`: every close time (`hhmmss`). -/
def mkRangeEndKeys : List Nat → List Nat
  | _ :: b :: rest => b * 100 :: mkRangeEndKeys rest
  | _ => []

/-- Embedding of `tx_time_range::BreedTxTimeRange`.  `range_end_keys` is the
key set of the source's `range_end_hmap: HashMap<u32, ()>`. -/
structure BreedTxTimeRange where
  breed : String
  has_night : Bool
  tr_vec : List TimeRangeHms
  tr_vec_fix : List TimeRangeHms
  range_end_keys : List Nat
deriving Repr

/-- Embedding of `impl From<TxTimeRangeDbItem> for BreedTxTimeRange`, taking
the already-tokenized `hhmm` integer list (string parsing is transport glue).
`none` models the source panicking on fewer than two values. -/
def BreedTxTimeRange.fromValues (breed : String) (vv : List Nat) :
    Option BreedTxTimeRange :=
  match vv with
  | v1 :: v2 :: _ =>
    some ⟨breed, v1 == 2101, mkRanges vv, mkRangesFix (decide (v2 < v1)) vv,
      mkRangeEndKeys vv⟩
  | _ => none

/-- Unchecked segment indexing (`self.tr_vec[i]` / `.get(i).unwrap()`): the
construction guarantees at least one segment, so the default is unreachable
whenever the source would not have panicked. -/
def BreedTxTimeRange.getTr (ttr : BreedTxTimeRange) (i : Nat) : TimeRangeHms :=
  (ttr.tr_vec.get? i).getD (TimeRangeHms.new 0 0)

/-- Result of the segment-scanning loop at the top of
`BreedTxTimeRange::next_minute`. -/
inductive ScanRes where
  | close (idx : Nat)
  | inside
  | nomatch
deriving Repr, DecidableEq

/-- The scanning loop of `BreedTxTimeRange::next_minute`: find the segment
containing `hhmm`; report `close idx` when `hhmm` is that segment's close,
`inside` otherwise, `nomatch` when no segment contains it. -/
def BreedTxTimeRange.scan : List TimeRangeHms → Nat → Nat → ScanRes
  | [], _, _ => .nomatch
  | tr :: rest, hhmm, idx =>
    if (tr.stop.hhmmss < tr.start.hhmmss ∧
          ((tr.start.hhmm ≤ hhmm ∧ hhmm ≤ 2359) ∨ hhmm ≤ tr.stop.hhmm)) ∨
        (tr.start.hhmm ≤ hhmm ∧ hhmm ≤ tr.stop.hhmm) then
      if hhmm = tr.stop.hhmm then .close idx else .inside
    else BreedTxTimeRange.scan rest hhmm (idx + 1)

/-- The `hh:mm:00` time a segment start is materialized to
(`NaiveTime::from_hms_opt(start.hour, start.minute, 0)`). -/
def startTod (tr : TimeRangeHms) : Tod := ⟨tr.start.hour, tr.start.minute, 0⟩

/-- Embedding of `BreedTxTimeRange::next_minute`.  Inside a segment the result
is `datetime + 1min`; at a segment close the target date is resolved through
the calendar (branching on the literal close `hhmm`) and the target time is
the following segment's start (`tr_vec[1]` when a night session is skipped). -/
def BreedTxTimeRange.next_minute (ttr : BreedTxTimeRange) (tdu : TradingDayUtil)
    (datetime : DateTime) : Except KLineTimeError DateTime :=
  let hhmm := datetime.hms.hhmm
  match BreedTxTimeRange.scan ttr.tr_vec hhmm 0 with
  | .inside => .ok datetime.addOneMinute
  | .nomatch => .error (.DatetimeNotInRange ttr.breed datetime)
  | .close closeIdx =>
    match ttr.tr_vec.getLast? with
    | none => .error .panicked
    | some lastTr =>
      let next_tr := ttr.getTr ((closeIdx + 1) % ttr.tr_vec.length)
      let end_hhmm := lastTr.stop.hhmm
      let ymd := datetime.ymd
      let yyyymmdd := ymd.yyyymmdd
      if hhmm = 2300 then
        (tdu.next yyyymmdd).map
          (fun ntd => (Ymd.toDate ntd).andTime (startTod next_tr))
      else if hhmm = 100 ∨ hhmm = 230 then
        if tdu.is_td yyyymmdd then
          .ok ((Ymd.toDate ymd).andTime (startTod next_tr))
        else
          (tdu.next yyyymmdd).map
            (fun ntd => (Ymd.toDate ntd).andTime (startTod next_tr))
      else if hhmm = end_hhmm then
        (tdu.next yyyymmdd).bind (fun next_td =>
          if ttr.has_night then
            if tdu.has_night next_td.yyyymmdd then
              .ok ((Ymd.toDate ymd).andTime (startTod next_tr))
            else
              .ok ((Ymd.toDate next_td).andTime (startTod (ttr.getTr 1)))
          else
            .ok ((Ymd.toDate next_td).andTime (startTod next_tr)))
      else
        .ok ((Ymd.toDate ymd).andTime (startTod next_tr))

/-- Embedding of `BreedTxTimeRange::is_trading_time`: membership of the
time-of-day in any wrap-fixed segment. -/
def BreedTxTimeRange.is_trading_time (ttr : BreedTxTimeRange) (time : Tod) : Bool :=
  let hhmmss := (Hms.fromTod time).hhmmss
  ttr.tr_vec_fix.any
    (fun tr => decide (tr.start.hhmmss ≤ hhmmss ∧ hhmmss ≤ tr.stop.hhmmss))

/-- Embedding of `BreedTxTimeRange::is_first_minute`. -/
def BreedTxTimeRange.is_first_minute (ttr : BreedTxTimeRange) (tdu : TradingDayUtil)
    (trading_day : Nat) (time : Tod) : Bool :=
  let hms := Hms.fromTod time
  if ttr.has_night then
    if tdu.has_night trading_day then Hms.eqv hms (ttr.getTr 0).start
    else Hms.eqv hms (ttr.getTr 1).start
  else Hms.eqv hms (ttr.getTr 0).start

/-- Embedding of `BreedTxTimeRange::is_range_end`. -/
def BreedTxTimeRange.is_range_end (ttr : BreedTxTimeRange) (time : Tod) : Bool :=
  ttr.range_end_keys.contains (Hms.fromTod time).hhmmss

/-- Embedding of `tx_time_range::TxTimeRangeData`: breed-keyed session data. -/
structure TxTimeRangeData where
  breed_ttr_hmap : List (String × BreedTxTimeRange)

/-- `str::to_uppercase` on ASCII breed identifiers, written so that it
evaluates inside the kernel (`String.toUpper` itself does not reduce). -/
def toUpperStr (s : String) : String := String.mk (s.data.map Char.toUpper)

/-- `self.breed_ttr_hmap.get(&breed.to_uppercase())`. -/
def TxTimeRangeData.getBreed (d : TxTimeRangeData) (breed : String) :
    Option BreedTxTimeRange :=
  d.breed_ttr_hmap.lookup (toUpperStr breed)

/-- `TxTimeRangeData::time_range_vec`. -/
def TxTimeRangeData.time_range_vec (d : TxTimeRangeData) (breed : String) :
    Except KLineTimeError (List TimeRangeHms) :=
  match d.getBreed breed with
  | some v => .ok v.tr_vec
  | none => .error (.BreedNotExist breed "TxTimeRangeDate")

/-- `TxTimeRangeData::time_range_fix_vec`. -/
def TxTimeRangeData.time_range_fix_vec (d : TxTimeRangeData) (breed : String) :
    Except KLineTimeError (List TimeRangeHms) :=
  match d.getBreed breed with
  | some v => .ok v.tr_vec_fix
  | none => .error (.BreedNotExist breed "TxTimeRangeDate")

/-- `TxTimeRangeData::is_trading_time` (missing breed yields `false`). -/
def TxTimeRangeData.is_trading_time (d : TxTimeRangeData) (breed : String)
    (time : Tod) : Bool :=
  (d.getBreed breed).elim false (fun v => v.is_trading_time time)

/-- `TxTimeRangeData::is_empty`. -/
def TxTimeRangeData.is_empty (d : TxTimeRangeData) : Bool :=
  d.breed_ttr_hmap.isEmpty

/-- `TxTimeRangeData::is_had_night` (missing breed yields `false`). -/
def TxTimeRangeData.is_had_night (d : TxTimeRangeData) (breed : String) : Bool :=
  (d.getBreed breed).elim false (fun v => v.has_night)

/-- `TxTimeRangeData::next_minute` (missing breed is a `BreedNotExist` error). -/
def TxTimeRangeData.next_minute (d : TxTimeRangeData) (tdu : TradingDayUtil)
    (breed : String) (datetime : DateTime) : Except KLineTimeError DateTime :=
  match d.getBreed breed with
  | some v => v.next_minute tdu datetime
  | none => .error (.BreedNotExist breed "TxTimeRangeDate")

/-- `TxTimeRangeData::is_first_minute` (missing breed yields `false`). -/
def TxTimeRangeData.is_first_minute (d : TxTimeRangeData) (tdu : TradingDayUtil)
    (breed : String) (trading_day : Nat) (time : Tod) : Bool :=
  (d.getBreed breed).elim false (fun v => v.is_first_minute tdu trading_day time)

/-- `TxTimeRangeData::is_range_end` (missing breed yields `false`). -/
def TxTimeRangeData.is_range_end (d : TxTimeRangeData) (breed : String)
    (time : Tod) : Bool :=
  (d.getBreed breed).elim false (fun v => v.is_range_end time)

instance {e a : Type} [DecidableEq e] [DecidableEq a] : DecidableEq (Except e a) :=
  fun x y =>
    match x, y with
    | .ok u, .ok v =>
      if h : u = v then .isTrue (by rw [h]) else .isFalse (by simp [h])
    | .error u, .error v =>
      if h : u = v then .isTrue (by rw [h]) else .isFalse (by simp [h])
    | .ok _, .error _ => .isFalse (by simp)
    | .error _, .ok _ => .isFalse (by simp)

/-- Session fixture: breed `AG` (night session 21:01–02:30), the range list
`[(2101,230),(901,1015),(1031,1130),(1331,1500)]` of the repository's tests. -/
def agTtr : BreedTxTimeRange :=
  (BreedTxTimeRange.fromValues "AG" [2101, 230, 901, 1015, 1031, 1130, 1331, 1500]).getD
    ⟨"", false, [], [], []⟩

/-- Session fixture: breed `A` (night session 21:01–23:00). -/
def aTtr : BreedTxTimeRange :=
  (BreedTxTimeRange.fromValues "A" [2101, 2300, 901, 1015, 1031, 1130, 1331, 1500]).getD
    ⟨"", false, [], [], []⟩

/-- Session fixture: breed `IC` (no night session). -/
def icTtr : BreedTxTimeRange :=
  (BreedTxTimeRange.fromValues "IC" [931, 1130, 1301, 1500]).getD
    ⟨"", false, [], [], []⟩

/-- Session-data fixture holding the three breeds above (keys upper-cased, as
the loader stores them). -/
def trdFix : TxTimeRangeData :=
  ⟨[("AG", agTtr), ("A", aTtr), ("IC", icTtr)]⟩

/-- The `next_minute` transition table exactly as the specification states it
(§4.2), with `today.has_night_session` read as the stored night flag of
`today` itself.  Used to compare the specified table against the code. -/
def specNextMinuteTable (ttr : BreedTxTimeRange) (tdu : TradingDayUtil)
    (datetime : DateTime) : Except KLineTimeError DateTime :=
  let hhmm := datetime.hms.hhmm
  match BreedTxTimeRange.scan ttr.tr_vec hhmm 0 with
  | .inside => .ok datetime.addOneMinute
  | .nomatch => .error (.DatetimeNotInRange ttr.breed datetime)
  | .close closeIdx =>
    match ttr.tr_vec.getLast? with
    | none => .error .panicked
    | some lastTr =>
      let next_tr := ttr.getTr ((closeIdx + 1) % ttr.tr_vec.length)
      let end_hhmm := lastTr.stop.hhmm
      let ymd := datetime.ymd
      let yyyymmdd := ymd.yyyymmdd
      if hhmm = 2300 then
        (tdu.next yyyymmdd).map
          (fun ntd => (Ymd.toDate ntd).andTime (startTod next_tr))
      else if hhmm = 100 ∨ hhmm = 230 then
        if tdu.is_td yyyymmdd then
          .ok ((Ymd.toDate ymd).andTime (startTod next_tr))
        else
          (tdu.next yyyymmdd).map
            (fun ntd => (Ymd.toDate ntd).andTime (startTod next_tr))
      else if hhmm = end_hhmm then
        if ttr.has_night ∧ tdu.has_night yyyymmdd then
          .ok ((Ymd.toDate ymd).andTime (startTod (ttr.getTr 0)))
        else
          (tdu.next yyyymmdd).map (fun next_td =>
            (Ymd.toDate next_td).andTime
              (startTod (if ttr.has_night then ttr.getTr 1 else ttr.getTr 0)))
      else
        .ok ((Ymd.toDate ymd).andTime (startTod next_tr))

/-- Counterexample to C1 as stated: breed `AG` at the day's last close
`2022-06-02 15:00` (2022-06-02 carries `has_night = true`, but the following
trading day 2022-06-06 does not).  The code jumps to `2022-06-06 09:01`,
while the spec's table (reading `today.has_night_session`) keeps `today` and
answers `2022-06-02 21:01`. -/
theorem c1_next_minute_table_counterexample :
    agTtr.next_minute juneCal ⟨⟨2022, 6, 2⟩, ⟨15, 0, 0⟩⟩ =
      .ok ⟨⟨2022, 6, 6⟩, ⟨9, 1, 0⟩⟩ ∧
    specNextMinuteTable agTtr juneCal ⟨⟨2022, 6, 2⟩, ⟨15, 0, 0⟩⟩ =
      .ok ⟨⟨2022, 6, 2⟩, ⟨21, 1, 0⟩⟩ ∧
    agTtr.next_minute juneCal ⟨⟨2022, 6, 2⟩, ⟨15, 0, 0⟩⟩ ≠
      specNextMinuteTable agTtr juneCal ⟨⟨2022, 6, 2⟩, ⟨15, 0, 0⟩⟩ := by
  refine ⟨by rfl, by rfl, ?_⟩
  decide

/-- C1 (amended): at a segment close, `next_minute` resolves the target per
the transition table, except that at the day's last close the night-session
flag consulted is that of the *next trading day* (whether tonight's night
session exists), not `today`'s own stored flag: at a 23:00 night-end the date
is `next_trading_day(today)`; at a 01:00/02:30 night-end it is `today` when
`today` is a trading day, else `next_trading_day(today)`; at the day's last
close it is `today` when the breed has a night session and
`next_trading_day(today)` carries the night flag, else `next_trading_day(today)`;
the target time is the following segment's stored start (the night open+1
when the night session is kept, else the non-night open+1). -/
theorem c1_next_minute_transition_table (ttr : BreedTxTimeRange)
    (tdu : TradingDayUtil) (dt : DateTime) (i : Nat) (ntd : Ymd)
    (hscan : BreedTxTimeRange.scan ttr.tr_vec dt.hms.hhmm 0 = .close i)
    (hne : ttr.tr_vec ≠ [])
    (hnext : tdu.next dt.ymd.yyyymmdd = .ok ntd) :
    (dt.hms.hhmm = 2300 →
      ttr.next_minute tdu dt =
        .ok ((Ymd.toDate ntd).andTime
          (startTod (ttr.getTr ((i + 1) % ttr.tr_vec.length))))) ∧
    ((dt.hms.hhmm = 100 ∨ dt.hms.hhmm = 230) →
      ttr.next_minute tdu dt =
        .ok ((if tdu.is_td dt.ymd.yyyymmdd then dt.date else Ymd.toDate ntd).andTime
          (startTod (ttr.getTr ((i + 1) % ttr.tr_vec.length))))) ∧
    (∀ lastTr, ttr.tr_vec.getLast? = some lastTr →
      dt.hms.hhmm = lastTr.stop.hhmm →
      dt.hms.hhmm ≠ 2300 → dt.hms.hhmm ≠ 100 → dt.hms.hhmm ≠ 230 →
      i + 1 = ttr.tr_vec.length →
      ttr.next_minute tdu dt =
        .ok (if ttr.has_night ∧ tdu.has_night ntd.yyyymmdd = true then
              dt.date.andTime (startTod (ttr.getTr 0))
            else if ttr.has_night then
              (Ymd.toDate ntd).andTime (startTod (ttr.getTr 1))
            else
              (Ymd.toDate ntd).andTime (startTod (ttr.getTr 0)))) := by
  obtain ⟨lastTr, hlast⟩ : ∃ l, ttr.tr_vec.getLast? = some l := by
    cases hcase : ttr.tr_vec.getLast? with
    | none => exact absurd (List.getLast?_eq_none_iff.mp hcase) hne
    | some l => exact ⟨l, rfl⟩
  refine ⟨?_, ?_, ?_⟩
  · intro h2300
    simp only [BreedTxTimeRange.next_minute, hscan, hlast]
    rw [if_pos h2300, hnext]
    rfl
  · intro h1
    have hn2300 : ¬ (dt.hms.hhmm = 2300) := by rcases h1 with h | h <;> omega
    simp only [BreedTxTimeRange.next_minute, hscan, hlast]
    rw [if_neg hn2300, if_pos h1]
    cases htd : tdu.is_td dt.ymd.yyyymmdd with
    | true =>
        rw [if_pos rfl, if_pos rfl]
        rfl
    | false =>
        rw [if_neg (by simp), if_neg (by simp), hnext]
        rfl
  · intro lastTr2 hlast2 heq hne2300 hne100 hne230 hlen
    rw [hlast] at hlast2
    injection hlast2 with hlast3
    have h1 : ¬ (dt.hms.hhmm = 100 ∨ dt.hms.hhmm = 230) := by
      rintro (h | h) <;> omega
    have hend : dt.hms.hhmm = lastTr.stop.hhmm := by rw [heq, hlast3]
    have hmod : (i + 1) % ttr.tr_vec.length = 0 := by rw [← hlen]; exact Nat.mod_self _
    simp only [BreedTxTimeRange.next_minute, hscan, hlast]
    rw [if_neg hne2300, if_neg h1, if_pos hend, hnext, hmod]
    simp only [Except.bind]
    cases hhn : ttr.has_night with
    | false =>
        rw [if_neg (by simp), if_neg (by simp), if_neg (by simp)]
    | true =>
        rw [if_pos rfl]
        cases htn : tdu.has_night ntd.yyyymmdd with
        | true =>
            rw [if_pos rfl, if_pos (by simp)]
            rfl
        | false =>
            rw [if_neg (by simp), if_neg (by simp), if_pos rfl]

/-- Witness for the amended C1 at breed `AG`, the day's last close
`2022-06-02 15:00:00` (the following trading day 2022-06-06 has no night
session, so the result jumps to its day open `09:01`). -/
theorem c1_next_minute_transition_table_witness :
    agTtr.next_minute juneCal ⟨⟨2022, 6, 2⟩, ⟨15, 0, 0⟩⟩ =
      .ok (if agTtr.has_night ∧ juneCal.has_night (Ymd.fromYyyymmdd 20220606).yyyymmdd = true then
            (⟨⟨2022, 6, 2⟩, ⟨15, 0, 0⟩⟩ : DateTime).date.andTime (startTod (agTtr.getTr 0))
          else if agTtr.has_night then
            (Ymd.toDate (Ymd.fromYyyymmdd 20220606)).andTime (startTod (agTtr.getTr 1))
          else
            (Ymd.toDate (Ymd.fromYyyymmdd 20220606)).andTime (startTod (agTtr.getTr 0))) :=
  (c1_next_minute_transition_table agTtr juneCal ⟨⟨2022, 6, 2⟩, ⟨15, 0, 0⟩⟩ 3
    (Ymd.fromYyyymmdd 20220606) (by decide) (by decide) (by rfl)).2.2
    (TimeRangeHms.new 133100 150000) (by rfl) (by decide) (by decide) (by decide)
    (by decide) (by decide)

/-- Counterexample to C7 as stated: `is_trading_time`, `is_first_minute` and
`is_range_end` return the plain default `false` for a breed with no loaded
data (their `map_or(false, …)` has no error channel), indistinguishable from
a loaded breed's negative answer — they do not surface `UnknownBreed`. -/
theorem c7_unknown_breed_counterexample :
    trdFix.is_trading_time "ZZ" ⟨10, 0, 0⟩ = false ∧
    trdFix.is_first_minute juneCal "ZZ" 20220608 ⟨21, 1, 0⟩ = false ∧
    trdFix.is_range_end "ZZ" ⟨15, 0, 0⟩ = false ∧
    trdFix.is_trading_time "AG" ⟨5, 0, 0⟩ = false := by
  refine ⟨by rfl, by rfl, by rfl, by rfl⟩

/-- C7 (amended): for a breed with no loaded session data, `next_minute`,
`time_range_vec` and `time_range_fix_vec` surface `BreedNotExist`, while the
boolean helpers `is_trading_time`, `is_first_minute` and `is_range_end`
silently return `false`. -/
theorem c7_unknown_breed_behaviour (d : TxTimeRangeData) (tdu : TradingDayUtil)
    (breed : String) (dt : DateTime) (td : Nat) (time : Tod)
    (h : d.getBreed breed = none) :
    d.next_minute tdu breed dt = .error (.BreedNotExist breed "TxTimeRangeDate") ∧
    d.time_range_vec breed = .error (.BreedNotExist breed "TxTimeRangeDate") ∧
    d.time_range_fix_vec breed = .error (.BreedNotExist breed "TxTimeRangeDate") ∧
    d.is_trading_time breed time = false ∧
    d.is_first_minute tdu breed td time = false ∧
    d.is_range_end breed time = false := by
  refine ⟨?_, ?_, ?_, ?_, ?_, ?_⟩ <;>
    simp only [TxTimeRangeData.next_minute, TxTimeRangeData.time_range_vec,
      TxTimeRangeData.time_range_fix_vec, TxTimeRangeData.is_trading_time,
      TxTimeRangeData.is_first_minute, TxTimeRangeData.is_range_end, h] <;>
    rfl

/-- Witness for the amended C7 at the fixture data and breed `ZZ`. -/
theorem c7_unknown_breed_behaviour_witness :
    trdFix.next_minute juneCal "ZZ" ⟨⟨2022, 6, 8⟩, ⟨10, 0, 0⟩⟩ =
      .error (.BreedNotExist "ZZ" "TxTimeRangeDate") ∧
    trdFix.time_range_vec "ZZ" = .error (.BreedNotExist "ZZ" "TxTimeRangeDate") ∧
    trdFix.time_range_fix_vec "ZZ" = .error (.BreedNotExist "ZZ" "TxTimeRangeDate") ∧
    trdFix.is_trading_time "ZZ" ⟨10, 0, 0⟩ = false ∧
    trdFix.is_first_minute juneCal "ZZ" 20220608 ⟨10, 0, 0⟩ = false ∧
    trdFix.is_range_end "ZZ" ⟨10, 0, 0⟩ = false :=
  c7_unknown_breed_behaviour trdFix juneCal "ZZ" ⟨⟨2022, 6, 8⟩, ⟨10, 0, 0⟩⟩
    20220608 ⟨10, 0, 0⟩ (by rfl)

/-- Embedding of `convert_to_1m::ConvertTo1m`. -/
structure ConvertTo1m where
  trd : TxTimeRangeData
  tdu : TradingDayUtil
  breed_1mtime_hmap : List (String × List (Nat × Hms))

/-- The special-time table built for one breed by `init_for_breed_vec`: the
pre-open key for the first segment (`panic` — modelled as `none` — on an
unknown opening time) and each segment close keyed by its `hhmm`.  Insertion
order is immaterial because the keys are pairwise distinct for the session
shapes the loader accepts. -/
def mk1mTimeMap : List TimeRangeHms → Option (List (Nat × Hms))
  | [] => some []
  | tr0 :: rest =>
    let special : Option (Nat × Hms) :=
      if tr0.start.hhmmss = 90100 then some (859, Hms.fromHhmmss 90100)
      else if tr0.start.hhmmss = 93100 then some (929, Hms.fromHhmmss 93100)
      else if tr0.start.hhmmss = 210100 then some (2059, Hms.fromHhmmss 210100)
      else none
    match special with
    | none => none
    | some kv => some (kv :: (tr0 :: rest).map (fun tr => (tr.stop.hhmm, tr.stop)))

/-- The per-breed loop of `ConvertTo1m::init_for_breed_vec`: a breed whose
session lookup fails is logged and skipped; a bad opening time panics. -/
def ConvertTo1m.mkMaps (trd : TxTimeRangeData) :
    List String → Option (List (String × List (Nat × Hms)))
  | [] => some []
  | breed :: rest =>
    match trd.time_range_vec breed with
    | .error _ => ConvertTo1m.mkMaps trd rest
    | .ok trs =>
      match mk1mTimeMap trs with
      | none => none
      | some m => (ConvertTo1m.mkMaps trd rest).map (fun ms => (breed, m) :: ms)

/-- Embedding of `ConvertTo1m::init_for_breed_vec` (with the breed list as
input). -/
def ConvertTo1m.init_for_breed_vec (trd : TxTimeRangeData) (tdu : TradingDayUtil)
    (breeds : List String) : Except KLineTimeError ConvertTo1m :=
  if breeds.isEmpty then .error .BreedVecEmpty
  else if trd.is_empty then .error .TxTimeRangeDataEmpty
  else
    match ConvertTo1m.mkMaps trd breeds with
    | none => .error .panicked
    | some ms => .ok ⟨trd, tdu, ms⟩

/-- The candidate K-line time `to_1m` computes before validation: the
special-time table value when the minute is a special minute, otherwise
seconds truncated plus one minute. -/
def candidate1m (tm : List (Nat × Hms)) (date : Date) (hour minu sec : Nat) :
    DateTime :=
  match tm.lookup (Hms.fromHms hour minu sec).hhmm with
  | some v => date.andTime (Hms.toTod v)
  | none => (date.andTime ⟨hour, minu, 0⟩).addOneMinute

/-- Embedding of `ConvertTo1m::to_1m`.  Exactly `00:00:00` short-circuits to
midnight of `date`; otherwise the candidate is computed and validated against
`is_trading_time`. -/
def ConvertTo1m.to_1m (c : ConvertTo1m) (breed : String) (date : Date)
    (hour minu sec : Nat) : Except KLineTimeError DateTime :=
  let hms := Hms.fromHms hour minu sec
  if hms.hhmmss = 0 then .ok (date.andTime ⟨0, 0, 0⟩)
  else
    match c.breed_1mtime_hmap.lookup breed with
    | none => .error (.BreedNotExist breed "Convert1m")
    | some tm =>
      let datetime := candidate1m tm date hour minu sec
      if c.trd.is_trading_time breed datetime.tod then .ok datetime
      else .error (.DatetimeNotInRange breed datetime)

/-- Embedding of `ConvertTo1m::to_1m_with_min_dg_day` (nanoseconds of the
returned tick time are dropped). -/
def ConvertTo1m.to_1m_with_min_dg_day (c : ConvertTo1m) (breed : String)
    (min_dg_day : Nat) (time : Tod) : Except KLineTimeError (DateTime × DateTime) :=
  let date0 := Ymd.toDate (Ymd.fromYyyymmdd min_dg_day)
  let date := if time.hour < 3 then date0.succ else date0
  (c.to_1m breed date time.hour time.minute time.second).map
    (fun v => (v, date.andTime time))

/-- Embedding of `ConvertTo1m::to_1m_with_trading_day`. -/
def ConvertTo1m.to_1m_with_trading_day (c : ConvertTo1m) (breed : String)
    (trading_day : Nat) (time : Tod) : Except KLineTimeError (DateTime × DateTime) :=
  let hhmm := time.hour * 100 + time.minute
  let dateE : Except KLineTimeError Date :=
    if 2058 ≤ hhmm then (c.tdu.prev trading_day).map (fun p => Ymd.toDate p)
    else if hhmm < 300 then (c.tdu.prev trading_day).map (fun p => (Ymd.toDate p).succ)
    else .ok (Ymd.toDate (Ymd.fromYyyymmdd trading_day))
  dateE.bind (fun date =>
    (c.to_1m breed date time.hour time.minute time.second).map
      (fun v => (v, date.andTime time)))

/-- Fixture: the 1-minute converter over `trdFix` and `juneCal`, loaded for
the breed identifiers as the repository's breed table stores them. -/
def conv1m : ConvertTo1m :=
  (ConvertTo1m.init_for_breed_vec trdFix juneCal ["ag", "a", "IC"]).toOption.getD
    ⟨⟨[]⟩, ⟨[], []⟩, []⟩

/-- Counterexample to C2 as stated: at exactly `00:00:00`, `to_1m` returns
midnight of the computed date *without* the `is_trading_time` validation, so
a breed with no midnight session (here `IC`) gets an out-of-session timestamp
back as `Ok`. -/
theorem c2_out_of_session_counterexample :
    conv1m.to_1m_with_min_dg_day "IC" 20220610 ⟨0, 0, 0⟩ =
      .ok (⟨⟨2022, 6, 11⟩, ⟨0, 0, 0⟩⟩, ⟨⟨2022, 6, 11⟩, ⟨0, 0, 0⟩⟩) ∧
    conv1m.trd.is_trading_time "IC" ⟨0, 0, 0⟩ = false := by
  exact ⟨by rfl, by rfl⟩

/-- C2 (amended): away from the exact-midnight shortcut (`hhmmss = 0`), the
1-minute bucketer validates the computed candidate against `is_trading_time`:
every `Ok` result (also through both wrappers) is in-session, and an
out-of-session candidate fails with `DatetimeNotInRange {breed, datetime}`. -/
theorem c2_to_1m_validation (c : ConvertTo1m) (breed : String) :
    (∀ date hour minu sec dt, ¬ (Hms.fromHms hour minu sec).hhmmss = 0 →
      c.to_1m breed date hour minu sec = .ok dt →
      c.trd.is_trading_time breed dt.tod = true) ∧
    (∀ date hour minu sec tm, ¬ (Hms.fromHms hour minu sec).hhmmss = 0 →
      c.breed_1mtime_hmap.lookup breed = some tm →
      c.trd.is_trading_time breed (candidate1m tm date hour minu sec).tod = false →
      c.to_1m breed date hour minu sec =
        .error (.DatetimeNotInRange breed (candidate1m tm date hour minu sec))) ∧
    (∀ day time r, ¬ (Hms.fromHms time.hour time.minute time.second).hhmmss = 0 →
      c.to_1m_with_min_dg_day breed day time = .ok r →
      c.trd.is_trading_time breed r.1.tod = true) ∧
    (∀ td time r, ¬ (Hms.fromHms time.hour time.minute time.second).hhmmss = 0 →
      c.to_1m_with_trading_day breed td time = .ok r →
      c.trd.is_trading_time breed r.1.tod = true) := by
  have hcore : ∀ date hour minu sec dt, ¬ (Hms.fromHms hour minu sec).hhmmss = 0 →
      c.to_1m breed date hour minu sec = .ok dt →
      c.trd.is_trading_time breed dt.tod = true := by
    intro date hour minu sec dt hnz hok
    simp only [ConvertTo1m.to_1m] at hok
    rw [if_neg hnz] at hok
    cases hm : c.breed_1mtime_hmap.lookup breed with
    | none => rw [hm] at hok; cases hok
    | some tm =>
        rw [hm] at hok
        simp only at hok
        cases ht : c.trd.is_trading_time breed (candidate1m tm date hour minu sec).tod with
        | false => rw [if_neg (by simp [ht])] at hok; cases hok
        | true =>
            rw [if_pos ht] at hok
            injection hok with hok2
            rw [← hok2]
            exact ht
  refine ⟨hcore, ?_, ?_, ?_⟩
  · intro date hour minu sec tm hnz hm hbad
    simp only [ConvertTo1m.to_1m]
    rw [if_neg hnz, hm]
    simp only
    rw [if_neg (by simp [hbad])]
  · intro day time r hnz hok
    simp only [ConvertTo1m.to_1m_with_min_dg_day] at hok
    cases hin : c.to_1m breed
        (if time.hour < 3 then (Ymd.toDate (Ymd.fromYyyymmdd day)).succ
          else Ymd.toDate (Ymd.fromYyyymmdd day))
        time.hour time.minute time.second with
    | error e => rw [hin] at hok; cases hok
    | ok v =>
        rw [hin] at hok
        injection hok with hok2
        have := hcore _ _ _ _ _ hnz hin
        rw [← hok2]
        exact this
  · intro td time r hnz hok
    simp only [ConvertTo1m.to_1m_with_trading_day] at hok
    cases hdate : (if 2058 ≤ time.hour * 100 + time.minute then
        (c.tdu.prev td).map (fun p => Ymd.toDate p)
      else if time.hour * 100 + time.minute < 300 then
        (c.tdu.prev td).map (fun p => (Ymd.toDate p).succ)
      else .ok (Ymd.toDate (Ymd.fromYyyymmdd td))) with
    | error e => rw [hdate] at hok; cases hok
    | ok date =>
        rw [hdate] at hok
        simp only [Except.bind] at hok
        cases hin : c.to_1m breed date time.hour time.minute time.second with
        | error e => rw [hin] at hok; cases hok
        | ok v =>
            rw [hin] at hok
            injection hok with hok2
            have := hcore _ _ _ _ _ hnz hin
            rw [← hok2]
            exact this

/-- Witness for the amended C2: breed `ag`, tick `2022-06-10 21:05:30`; the
1-minute result `21:06:00` is validated in-session. -/
theorem c2_to_1m_validation_witness :
    conv1m.trd.is_trading_time "ag"
      ((⟨⟨2022, 6, 10⟩, ⟨21, 6, 0⟩⟩, ⟨⟨2022, 6, 10⟩, ⟨21, 5, 30⟩⟩) :
        DateTime × DateTime).1.tod = true :=
  (c2_to_1m_validation conv1m "ag").2.2.1 20220610 ⟨21, 5, 30⟩
    (⟨⟨2022, 6, 10⟩, ⟨21, 6, 0⟩⟩, ⟨⟨2022, 6, 10⟩, ⟨21, 5, 30⟩⟩)
    (by decide) (by rfl)

/-- Counterexample to C8 as stated: breed matching is *not* case-insensitive
uniformly across components — the 1-minute bucketer's special-time table is
keyed by the exact stored breed string, so `ag` succeeds while `AG` fails
with `BreedNotExist`. -/
theorem c8_breed_casing_counterexample :
    conv1m.to_1m_with_min_dg_day "ag" 20220610 ⟨21, 5, 30⟩ =
      .ok (⟨⟨2022, 6, 10⟩, ⟨21, 6, 0⟩⟩, ⟨⟨2022, 6, 10⟩, ⟨21, 5, 30⟩⟩) ∧
    conv1m.to_1m_with_min_dg_day "AG" 20220610 ⟨21, 5, 30⟩ =
      .error (.BreedNotExist "AG" "Convert1m") := by
  exact ⟨by rfl, by rfl⟩

/-- C8 (amended): every `TxTimeRangeData` operation on a *loaded* breed is
case-insensitive (the key is upper-cased before lookup), while the 1-minute
bucketer's special-time table is keyed by the exact stored breed string. -/
theorem c8_breed_casing_insensitive (d : TxTimeRangeData) (tdu : TradingDayUtil)
    (b1 b2 : String) (v : BreedTxTimeRange)
    (hcase : toUpperStr b1 = toUpperStr b2)
    (hv : d.getBreed b1 = some v)
    (dt : DateTime) (time : Tod) (td : Nat) :
    d.next_minute tdu b1 dt = d.next_minute tdu b2 dt ∧
    d.is_trading_time b1 time = d.is_trading_time b2 time ∧
    d.is_had_night b1 = d.is_had_night b2 ∧
    d.is_first_minute tdu b1 td time = d.is_first_minute tdu b2 td time ∧
    d.is_range_end b1 time = d.is_range_end b2 time ∧
    d.time_range_vec b1 = d.time_range_vec b2 ∧
    d.time_range_fix_vec b1 = d.time_range_fix_vec b2 := by
  have hg : d.getBreed b2 = some v := by
    rw [TxTimeRangeData.getBreed, ← hcase, ← TxTimeRangeData.getBreed]
    exact hv
  refine ⟨?_, ?_, ?_, ?_, ?_, ?_, ?_⟩ <;>
    simp only [TxTimeRangeData.next_minute, TxTimeRangeData.is_trading_time,
      TxTimeRangeData.is_had_night, TxTimeRangeData.is_first_minute,
      TxTimeRangeData.is_range_end, TxTimeRangeData.time_range_vec,
      TxTimeRangeData.time_range_fix_vec, hv, hg]

/-- Witness for the amended C8: `ag` versus `aG` agree on the fixture data. -/
theorem c8_breed_casing_insensitive_witness :
    trdFix.next_minute juneCal "ag" ⟨⟨2022, 6, 10⟩, ⟨21, 5, 0⟩⟩ =
      trdFix.next_minute juneCal "aG" ⟨⟨2022, 6, 10⟩, ⟨21, 5, 0⟩⟩ ∧
    trdFix.is_trading_time "ag" ⟨22, 0, 0⟩ = trdFix.is_trading_time "aG" ⟨22, 0, 0⟩ ∧
    trdFix.is_had_night "ag" = trdFix.is_had_night "aG" ∧
    trdFix.is_first_minute juneCal "ag" 20220608 ⟨22, 0, 0⟩ =
      trdFix.is_first_minute juneCal "aG" 20220608 ⟨22, 0, 0⟩ ∧
    trdFix.is_range_end "ag" ⟨22, 0, 0⟩ = trdFix.is_range_end "aG" ⟨22, 0, 0⟩ ∧
    trdFix.time_range_vec "ag" = trdFix.time_range_vec "aG" ∧
    trdFix.time_range_fix_vec "ag" = trdFix.time_range_fix_vec "aG" :=
  c8_breed_casing_insensitive trdFix juneCal "ag" "aG" agTtr (by rfl) (by rfl)
    ⟨⟨2022, 6, 10⟩, ⟨21, 5, 0⟩⟩ ⟨22, 0, 0⟩ 20220608

/-- Modelled from the spec: `PeriodUtil::pv` lives in `qh/period.rs`, which
is not among the sources (only its callers are); the spec lists the supported
periods `{1m, 3m, 5m, 15m, 30m, 60m, 120m, 1d, 1w, 1month}` with their minute
durations, which this table reproduces (`1mth` is the spec's `1month`). -/
def PeriodUtil.pv (period : String) : Option Nat :=
  match period with
  | "1m" => some 1
  | "3m" => some 3
  | "5m" => some 5
  | "15m" => some 15
  | "30m" => some 30
  | "60m" => some 60
  | "120m" => some 120
  | "1d" => some 1440
  | "1w" => some 10080
  | "1mth" => some 43200
  | "1month" => some 43200
  | _ => none

lemma pv_3m : PeriodUtil.pv "3m" = some 3 := by rfl

lemma pv_5m : PeriodUtil.pv "5m" = some 5 := by rfl

lemma pv_15m : PeriodUtil.pv "15m" = some 15 := by rfl

/-- Embedding of `klinetime::TimeRangeDateTime` (field `end` is embedded as
`stop`). -/
structure TimeRangeDateTime where
  start : DateTime
  stop : DateTime
deriving Repr, DecidableEq

/-- Embedding of `ConvertTo3m5m15m::time_range`; `none` models the panic on a
period without a minute value.  The function touches no calendar data. -/
def ConvertTo3m5m15m.time_range (period : String) (time : DateTime) :
    Option TimeRangeDateTime :=
  (PeriodUtil.pv period).map (fun pv =>
    let time_offset := time.tod.minute % pv
    let stime_offset := if time_offset = 0 then pv - 1 else time_offset - 1
    let etime_offset := if time_offset = 0 then time_offset else pv - time_offset
    ⟨time.subMinutes stime_offset, time.addMinutes etime_offset⟩)

lemma c4core (p : Nat) (hp : 0 < p) (t : DateTime) (hv : t.Valid)
    (r : TimeRangeDateTime)
    (hr : r = ⟨t.subMinutes (if t.tod.minute % p = 0 then p - 1 else t.tod.minute % p - 1),
      t.addMinutes (if t.tod.minute % p = 0 then t.tod.minute % p
        else p - t.tod.minute % p)⟩) :
    (t.tod.minute % p = 0 → r = ⟨t.subMinutes (p - 1), t⟩) ∧
    (¬ t.tod.minute % p = 0 →
      r = ⟨t.subMinutes (t.tod.minute % p - 1), t.addMinutes (p - t.tod.minute % p)⟩) ∧
    DateTime.le t r.stop ∧ DateTime.lt r.stop (t.addMinutes p) := by
  have hmod := Nat.mod_lt t.tod.minute hp
  by_cases hoff : t.tod.minute % p = 0
  · subst hr
    refine ⟨fun _ => ?_, fun hc => absurd hoff hc, ?_, ?_⟩
    · rw [if_pos hoff, if_pos hoff, hoff]
      rfl
    · simp only [if_pos hoff, hoff]
      exact Or.inr rfl
    · simp only [if_pos hoff, hoff]
      show DateTime.lt (t.addMinutes 0) (t.addMinutes p)
      obtain ⟨hv0, hs0, _⟩ := DateTime.addMinutes_spec hv 0
      obtain ⟨hvp, hsp, _⟩ := DateTime.addMinutes_spec hv p
      rw [DateTime.lt_iff_toSec hv0 hvp, hs0, hsp]
      omega
  · subst hr
    refine ⟨fun hc => absurd hc hoff, fun _ => ?_, ?_, ?_⟩
    · rw [if_neg hoff, if_neg hoff]
    · simp only [if_neg hoff]
      obtain ⟨hve, hse, _⟩ := DateTime.addMinutes_spec hv (p - t.tod.minute % p)
      rw [DateTime.le_iff_toSec hv hve, hse]
      omega
    · simp only [if_neg hoff]
      obtain ⟨hve, hse, _⟩ := DateTime.addMinutes_spec hv (p - t.tod.minute % p)
      obtain ⟨hvp, hsp, _⟩ := DateTime.addMinutes_spec hv p
      rw [DateTime.lt_iff_toSec hve hvp, hse, hsp]
      omega

/-- C4: for `p ∈ {3, 5, 15}` the intraday bucketer returns the window
`[t - (p-1)min, t]` when `minute % p = 0` and
`[t - (offset-1)min, t + (p-offset)min]` otherwise; the bucket close is
always `≥ t` and `< t + p` minutes.  The computation is calendar-free by
construction (`ConvertTo3m5m15m.time_range` takes no calendar argument). -/
theorem c4_intraday_bucketer (period : String) (p : Nat) (t : DateTime)
    (r : TimeRangeDateTime)
    (hp : period = "3m" ∧ p = 3 ∨ period = "5m" ∧ p = 5 ∨ period = "15m" ∧ p = 15)
    (hv : t.Valid)
    (hr : ConvertTo3m5m15m.time_range period t = some r) :
    (t.tod.minute % p = 0 → r = ⟨t.subMinutes (p - 1), t⟩) ∧
    (¬ t.tod.minute % p = 0 →
      r = ⟨t.subMinutes (t.tod.minute % p - 1), t.addMinutes (p - t.tod.minute % p)⟩) ∧
    DateTime.le t r.stop ∧ DateTime.lt r.stop (t.addMinutes p) := by
  rcases hp with ⟨hq, hpe⟩ | ⟨hq, hpe⟩ | ⟨hq, hpe⟩ <;> subst hq <;> subst hpe
  · simp only [ConvertTo3m5m15m.time_range, pv_3m, Option.map] at hr
    injection hr with hr2
    exact c4core 3 (by omega) t hv r hr2.symm
  · simp only [ConvertTo3m5m15m.time_range, pv_5m, Option.map] at hr
    injection hr with hr2
    exact c4core 5 (by omega) t hv r hr2.symm
  · simp only [ConvertTo3m5m15m.time_range, pv_15m, Option.map] at hr
    injection hr with hr2
    exact c4core 15 (by omega) t hv r hr2.symm

/-- Witness for C4: the 15-minute window of `2022-06-13 10:50` is
`[10:46, 11:00]`. -/
theorem c4_intraday_bucketer_witness :
    ((50 % 15 = 0 : Prop) →
      (⟨⟨⟨2022, 6, 13⟩, ⟨10, 46, 0⟩⟩, ⟨⟨2022, 6, 13⟩, ⟨11, 0, 0⟩⟩⟩ : TimeRangeDateTime) =
        ⟨(⟨⟨2022, 6, 13⟩, ⟨10, 50, 0⟩⟩ : DateTime).subMinutes 14,
          ⟨⟨2022, 6, 13⟩, ⟨10, 50, 0⟩⟩⟩) ∧
    (¬ (50 % 15 = 0 : Prop) →
      (⟨⟨⟨2022, 6, 13⟩, ⟨10, 46, 0⟩⟩, ⟨⟨2022, 6, 13⟩, ⟨11, 0, 0⟩⟩⟩ : TimeRangeDateTime) =
        ⟨(⟨⟨2022, 6, 13⟩, ⟨10, 50, 0⟩⟩ : DateTime).subMinutes (50 % 15 - 1),
          (⟨⟨2022, 6, 13⟩, ⟨10, 50, 0⟩⟩ : DateTime).addMinutes (15 - 50 % 15)⟩) ∧
    DateTime.le ⟨⟨2022, 6, 13⟩, ⟨10, 50, 0⟩⟩
      (⟨⟨⟨2022, 6, 13⟩, ⟨10, 46, 0⟩⟩, ⟨⟨2022, 6, 13⟩, ⟨11, 0, 0⟩⟩⟩ : TimeRangeDateTime).stop ∧
    DateTime.lt (⟨⟨⟨2022, 6, 13⟩, ⟨10, 46, 0⟩⟩, ⟨⟨2022, 6, 13⟩, ⟨11, 0, 0⟩⟩⟩ :
        TimeRangeDateTime).stop
      ((⟨⟨2022, 6, 13⟩, ⟨10, 50, 0⟩⟩ : DateTime).addMinutes 15) :=
  c4_intraday_bucketer "15m" 15 ⟨⟨2022, 6, 13⟩, ⟨10, 50, 0⟩⟩
    ⟨⟨⟨2022, 6, 13⟩, ⟨10, 46, 0⟩⟩, ⟨⟨2022, 6, 13⟩, ⟨11, 0, 0⟩⟩⟩
    (by decide) (by decide) (by rfl)

/-- `Weekday::number_from_monday` of a date (Monday = 1 … Sunday = 7); the
day-count of 2022-06-13, a Monday, is divisible by 7. -/
def Date.numberFromMonday (x : Date) : Nat := x.dayNum % 7 + 1

/-- The nominal week-end date `ConvertTo1W::time_range` computes before the
trading-day rollback: this Friday, pushed a week out on a Friday strictly
after 21:00:00 and on Saturday/Sunday. -/
def weeklyNominalEnd (dt : DateTime) : Date :=
  let hhmmss := (Hms.fromTod dt.tod).hhmmss
  let nfm := dt.date.numberFromMonday
  if nfm = 5 ∧ 210000 < hhmmss then dt.date.addDays 7
  else if nfm = 6 ∨ nfm = 7 then dt.date.addDays (12 - nfm)
  else dt.date.addDays (5 - nfm)

/-- The week-start date of `ConvertTo1W::time_range`: nominal end minus 7
days for night-session breeds, minus 4 otherwise. -/
def weeklyStart (trd : TxTimeRangeData) (breed : String) (dt : DateTime) : Date :=
  if trd.is_had_night breed then (weeklyNominalEnd dt).subDays 7
  else (weeklyNominalEnd dt).subDays 4

/-- Embedding of `ConvertTo1W::time_range`. -/
def ConvertTo1W.time_range (trd : TxTimeRangeData) (tdu : TradingDayUtil)
    (breed : String) (dt : DateTime) : Except KLineTimeError TimeRangeDateTime :=
  let end_date0 := weeklyNominalEnd dt
  let start_date := weeklyStart trd breed dt
  let rolledE : Except KLineTimeError Date :=
    if tdu.is_td end_date0.key then .ok end_date0
    else
      (tdu.prev end_date0.key).bind (fun p =>
        if Date.lt (Ymd.toDate p) start_date then .error (.WeekNotHadTxDay dt)
        else .ok (Ymd.toDate p))
  rolledE.bind (fun end_date =>
    (trd.time_range_vec breed).bind (fun trh_vec =>
      match trh_vec.head?, trh_vec.getLast? with
      | some firstTr, some lastTr =>
        let sdatetime := start_date.andTime (Hms.toTod firstTr.start)
        let edatetime := end_date.andTime (Hms.toTod lastTr.stop)
        if DateTime.lt edatetime sdatetime then .error (.WeekNotHadTxDay dt)
        else .ok ⟨sdatetime, edatetime⟩
      | _, _ => .error .panicked))

/-- Trading-day calendar around the January 2023 Spring-Festival-style
holiday week: 2023-01-23 to 2023-01-27 are all holidays. -/
def janCal : TradingDayUtil :=
  (TradingDayUtil.init_from_db
    [20230113, 20230116, 20230117, 20230118, 20230119, 20230120,
     20230130, 20230131]).toOption.getD ⟨[], []⟩

/-- Counterexample to C3 as stated: for breed `AG` (night session) evaluated
on Wednesday `2023-01-25 10:00`, the nominal end Friday 2023-01-27 is a
holiday and rolls back to 2023-01-20, which equals (does not precede) the
start date — yet the call fails with `WeekNotHadTxDay`, because the start
datetime `01-20 21:01` exceeds the end datetime `01-20 15:00`. -/
theorem c3_weekly_counterexample :
    ConvertTo1W.time_range trdFix janCal "ag" ⟨⟨2023, 1, 25⟩, ⟨10, 0, 0⟩⟩ =
      .error (.WeekNotHadTxDay ⟨⟨2023, 1, 25⟩, ⟨10, 0, 0⟩⟩) ∧
    weeklyNominalEnd ⟨⟨2023, 1, 25⟩, ⟨10, 0, 0⟩⟩ = ⟨2023, 1, 27⟩ ∧
    janCal.is_td (Date.key ⟨2023, 1, 27⟩) = false ∧
    janCal.prev (Date.key ⟨2023, 1, 27⟩) = .ok (Ymd.fromYyyymmdd 20230120) ∧
    weeklyStart trdFix "ag" ⟨⟨2023, 1, 25⟩, ⟨10, 0, 0⟩⟩ = ⟨2023, 1, 20⟩ ∧
    ¬ Date.lt (Ymd.toDate (Ymd.fromYyyymmdd 20230120))
        (weeklyStart trdFix "ag" ⟨⟨2023, 1, 25⟩, ⟨10, 0, 0⟩⟩) := by
  refine ⟨by rfl, by rfl, by rfl, by rfl, by rfl, by decide⟩

/-- Arithmetic of the nominal end date: it is valid, lands exactly 7 days out
on a Friday strictly after 21:00:00, otherwise within the coming 6 days, and
its day count is always 4 mod 7 (a Friday). -/
lemma weeklyNominalEnd_spec {dt : DateTime} (h : dt.date.Valid) :
    (weeklyNominalEnd dt).Valid ∧
    ((dt.date.numberFromMonday = 5 ∧ 210000 < (Hms.fromTod dt.tod).hhmmss) →
      (weeklyNominalEnd dt).dayNum = dt.date.dayNum + 7) ∧
    (¬ (dt.date.numberFromMonday = 5 ∧ 210000 < (Hms.fromTod dt.tod).hhmmss) →
      dt.date.dayNum ≤ (weeklyNominalEnd dt).dayNum ∧
      (weeklyNominalEnd dt).dayNum ≤ dt.date.dayNum + 6) ∧
    (weeklyNominalEnd dt).dayNum % 7 = 4 := by
  have hnfm : dt.date.numberFromMonday = dt.date.dayNum % 7 + 1 := rfl
  by_cases hb1 : dt.date.numberFromMonday = 5 ∧ 210000 < (Hms.fromTod dt.tod).hhmmss
  · have hE : weeklyNominalEnd dt = dt.date.addDays 7 := by
      simp only [weeklyNominalEnd]
      rw [if_pos hb1]
    obtain ⟨hv7, hd7⟩ := Date.valid_addDays h 7
    obtain ⟨hb11, hb12⟩ := hb1
    rw [hE]
    refine ⟨hv7, fun _ => hd7, fun hc => absurd ⟨hb11, hb12⟩ hc, by omega⟩
  · by_cases hb2 : dt.date.numberFromMonday = 6 ∨ dt.date.numberFromMonday = 7
    · have hE : weeklyNominalEnd dt =
          dt.date.addDays (12 - dt.date.numberFromMonday) := by
        simp only [weeklyNominalEnd]
        rw [if_neg hb1, if_pos hb2]
      obtain ⟨hvk, hdk⟩ := Date.valid_addDays h (12 - dt.date.numberFromMonday)
      rw [hE]
      exact ⟨hvk, fun hc => absurd hc hb1, fun _ => by omega, by omega⟩
    · have hE : weeklyNominalEnd dt =
          dt.date.addDays (5 - dt.date.numberFromMonday) := by
        simp only [weeklyNominalEnd]
        rw [if_neg hb1, if_neg hb2]
      obtain ⟨hvk, hdk⟩ := Date.valid_addDays h (5 - dt.date.numberFromMonday)
      rw [hE]
      exact ⟨hvk, fun hc => absurd hc hb1, fun _ => by omega, by omega⟩

/-- Arithmetic of the week-start date: valid, and exactly 7 (night breeds) or
4 (day breeds) days before the nominal end. -/
lemma weeklyStart_spec (trd : TxTimeRangeData) (breed : String) {dt : DateTime}
    (h : dt.date.Valid) (hday : 7 ≤ dt.date.dayNum) :
    (weeklyStart trd breed dt).Valid ∧
    (weeklyStart trd breed dt).dayNum + (if trd.is_had_night breed then 7 else 4)
      = (weeklyNominalEnd dt).dayNum := by
  obtain ⟨hEv, hfri, hnfri, hmod⟩ := weeklyNominalEnd_spec h
  have hge : dt.date.dayNum ≤ (weeklyNominalEnd dt).dayNum := by
    by_cases hc : dt.date.numberFromMonday = 5 ∧ 210000 < (Hms.fromTod dt.tod).hhmmss
    · have := hfri hc; omega
    · exact (hnfri hc).1
  cases hn : trd.is_had_night breed
  · have h4 : 4 ≤ (weeklyNominalEnd dt).dayNum := by omega
    obtain ⟨hv, hd⟩ := Date.valid_subDays hEv h4
    have hW : weeklyStart trd breed dt = (weeklyNominalEnd dt).subDays 4 := by
      simp only [weeklyStart]
      rw [if_neg (by simp [hn])]
    rw [hW]
    rw [if_neg (by decide)]
    exact ⟨hv, by omega⟩
  · have h7 : 7 ≤ (weeklyNominalEnd dt).dayNum := by omega
    obtain ⟨hv, hd⟩ := Date.valid_subDays hEv h7
    have hW : weeklyStart trd breed dt = (weeklyNominalEnd dt).subDays 7 := by
      simp only [weeklyStart]
      rw [if_pos hn]
    rw [hW]
    rw [if_pos rfl]
    exact ⟨hv, by omega⟩

/-- The end date after the non-trading-day rollback of
`ConvertTo1W::time_range`: the nominal end itself when it is a trading day,
otherwise the given previous trading day. -/
def weeklyRolledEnd (tdu : TradingDayUtil) (dt : DateTime) (p : Ymd) : Date :=
  if tdu.is_td (weeklyNominalEnd dt).key then weeklyNominalEnd dt else Ymd.toDate p

/-- C3: the weekly bucketer's nominal end date is always a Friday — 7 days out
on a Friday strictly after 21:00:00, else within the coming 6 days — the start
date is end minus 7 days for night-session breeds and minus 4 otherwise, and
the call fails with `WeekNotHadTxDay` exactly when the start datetime (start
date at the first segment's open) exceeds the rolled-back end datetime (end
date at the last segment's close); the rollback pushing end strictly before
start is one instance of that comparison, equality of the two dates with a
later start time-of-day (night breeds) is another. -/
theorem c3_weekly_bucketer
    (trd : TxTimeRangeData) (tdu : TradingDayUtil) (breed : String) (dt : DateTime)
    (v : BreedTxTimeRange) (firstTr lastTr : TimeRangeHms) (p : Ymd)
    (hv : trd.getBreed breed = some v)
    (hfirst : v.tr_vec.head? = some firstTr)
    (hlast : v.tr_vec.getLast? = some lastTr)
    (hvalid : dt.date.Valid) (hday : 7 ≤ dt.date.dayNum)
    (hprev : tdu.is_td (weeklyNominalEnd dt).key = false →
      tdu.prev (weeklyNominalEnd dt).key = .ok p) :
    (weeklyNominalEnd dt).numberFromMonday = 5 ∧
    ((dt.date.numberFromMonday = 5 ∧ 210000 < (Hms.fromTod dt.tod).hhmmss) →
      (weeklyNominalEnd dt).dayNum = dt.date.dayNum + 7) ∧
    (¬ (dt.date.numberFromMonday = 5 ∧ 210000 < (Hms.fromTod dt.tod).hhmmss) →
      dt.date.dayNum ≤ (weeklyNominalEnd dt).dayNum ∧
      (weeklyNominalEnd dt).dayNum ≤ dt.date.dayNum + 6) ∧
    (weeklyStart trd breed dt).dayNum + (if trd.is_had_night breed then 7 else 4)
      = (weeklyNominalEnd dt).dayNum ∧
    ((DateTime.lt ((weeklyRolledEnd tdu dt p).andTime (Hms.toTod lastTr.stop))
        ((weeklyStart trd breed dt).andTime (Hms.toTod firstTr.start)) →
      ConvertTo1W.time_range trd tdu breed dt = .error (.WeekNotHadTxDay dt)) ∧
     (¬ DateTime.lt ((weeklyRolledEnd tdu dt p).andTime (Hms.toTod lastTr.stop))
        ((weeklyStart trd breed dt).andTime (Hms.toTod firstTr.start)) →
      ConvertTo1W.time_range trd tdu breed dt =
        .ok ⟨(weeklyStart trd breed dt).andTime (Hms.toTod firstTr.start),
             (weeklyRolledEnd tdu dt p).andTime (Hms.toTod lastTr.stop)⟩)) := by
  obtain ⟨hEv, hfri, hnfri, hmod⟩ := weeklyNominalEnd_spec hvalid
  have hnfmE : (weeklyNominalEnd dt).numberFromMonday
      = (weeklyNominalEnd dt).dayNum % 7 + 1 := rfl
  refine ⟨by omega, hfri, hnfri, (weeklyStart_spec trd breed hvalid hday).2, ?_⟩
  cases htd : tdu.is_td (weeklyNominalEnd dt).key with
  | true =>
    have hR : weeklyRolledEnd tdu dt p = weeklyNominalEnd dt := by
      simp only [weeklyRolledEnd]
      rw [if_pos htd]
    have hcomp : ConvertTo1W.time_range trd tdu breed dt =
        (if DateTime.lt ((weeklyNominalEnd dt).andTime (Hms.toTod lastTr.stop))
            ((weeklyStart trd breed dt).andTime (Hms.toTod firstTr.start)) then
          .error (.WeekNotHadTxDay dt)
        else .ok ⟨(weeklyStart trd breed dt).andTime (Hms.toTod firstTr.start),
                  (weeklyNominalEnd dt).andTime (Hms.toTod lastTr.stop)⟩) := by
      simp only [ConvertTo1W.time_range]
      rw [if_pos htd]
      simp only [Except.bind, TxTimeRangeData.time_range_vec, hv, hfirst, hlast]
    rw [hR]
    constructor
    · intro hlt
      rw [hcomp, if_pos hlt]
    · intro hnlt
      rw [hcomp, if_neg hnlt]
  | false =>
    have hp := hprev htd
    have hR : weeklyRolledEnd tdu dt p = Ymd.toDate p := by
      simp only [weeklyRolledEnd]
      rw [if_neg (by simp [htd])]
    rw [hR]
    by_cases hps : Date.lt (Ymd.toDate p) (weeklyStart trd breed dt)
    · have hcomp : ConvertTo1W.time_range trd tdu breed dt
          = .error (.WeekNotHadTxDay dt) := by
        simp only [ConvertTo1W.time_range]
        rw [if_neg (by simp [htd]), hp]
        simp only [Except.bind]
        rw [if_pos hps]
      constructor
      · intro _
        exact hcomp
      · intro hnlt
        exact absurd (Or.inl hps) hnlt
    · have hcomp : ConvertTo1W.time_range trd tdu breed dt =
          (if DateTime.lt ((Ymd.toDate p).andTime (Hms.toTod lastTr.stop))
              ((weeklyStart trd breed dt).andTime (Hms.toTod firstTr.start)) then
            .error (.WeekNotHadTxDay dt)
          else .ok ⟨(weeklyStart trd breed dt).andTime (Hms.toTod firstTr.start),
                    (Ymd.toDate p).andTime (Hms.toTod lastTr.stop)⟩) := by
        simp only [ConvertTo1W.time_range]
        rw [if_neg (by simp [htd]), hp]
        simp only [Except.bind]
        rw [if_neg hps]
        simp only [Except.bind, TxTimeRangeData.time_range_vec, hv, hfirst, hlast]
      constructor
      · intro hlt
        rw [hcomp, if_pos hlt]
      · intro hnlt
        rw [hcomp, if_neg hnlt]

/-- Witness for C3 at breed `AG`, Wednesday 2023-01-25 10:00 over the January
2023 holiday calendar. -/
theorem c3_weekly_bucketer_witness :
    (weeklyNominalEnd ⟨⟨2023, 1, 25⟩, ⟨10, 0, 0⟩⟩).numberFromMonday = 5 ∧
    (((⟨2023, 1, 25⟩ : Date).numberFromMonday = 5 ∧
        210000 < (Hms.fromTod ⟨10, 0, 0⟩).hhmmss) →
      (weeklyNominalEnd ⟨⟨2023, 1, 25⟩, ⟨10, 0, 0⟩⟩).dayNum
        = (⟨2023, 1, 25⟩ : Date).dayNum + 7) ∧
    (¬ ((⟨2023, 1, 25⟩ : Date).numberFromMonday = 5 ∧
        210000 < (Hms.fromTod ⟨10, 0, 0⟩).hhmmss) →
      (⟨2023, 1, 25⟩ : Date).dayNum
        ≤ (weeklyNominalEnd ⟨⟨2023, 1, 25⟩, ⟨10, 0, 0⟩⟩).dayNum ∧
      (weeklyNominalEnd ⟨⟨2023, 1, 25⟩, ⟨10, 0, 0⟩⟩).dayNum
        ≤ (⟨2023, 1, 25⟩ : Date).dayNum + 6) ∧
    (weeklyStart trdFix "ag" ⟨⟨2023, 1, 25⟩, ⟨10, 0, 0⟩⟩).dayNum +
        (if trdFix.is_had_night "ag" then 7 else 4)
      = (weeklyNominalEnd ⟨⟨2023, 1, 25⟩, ⟨10, 0, 0⟩⟩).dayNum ∧
    ((DateTime.lt
        ((weeklyRolledEnd janCal ⟨⟨2023, 1, 25⟩, ⟨10, 0, 0⟩⟩
            (Ymd.fromYyyymmdd 20230120)).andTime
          (Hms.toTod (TimeRangeHms.new 133100 150000).stop))
        ((weeklyStart trdFix "ag" ⟨⟨2023, 1, 25⟩, ⟨10, 0, 0⟩⟩).andTime
          (Hms.toTod (TimeRangeHms.new 210100 23000).start)) →
      ConvertTo1W.time_range trdFix janCal "ag" ⟨⟨2023, 1, 25⟩, ⟨10, 0, 0⟩⟩ =
        .error (.WeekNotHadTxDay ⟨⟨2023, 1, 25⟩, ⟨10, 0, 0⟩⟩)) ∧
     (¬ DateTime.lt
        ((weeklyRolledEnd janCal ⟨⟨2023, 1, 25⟩, ⟨10, 0, 0⟩⟩
            (Ymd.fromYyyymmdd 20230120)).andTime
          (Hms.toTod (TimeRangeHms.new 133100 150000).stop))
        ((weeklyStart trdFix "ag" ⟨⟨2023, 1, 25⟩, ⟨10, 0, 0⟩⟩).andTime
          (Hms.toTod (TimeRangeHms.new 210100 23000).start)) →
      ConvertTo1W.time_range trdFix janCal "ag" ⟨⟨2023, 1, 25⟩, ⟨10, 0, 0⟩⟩ =
        .ok ⟨(weeklyStart trdFix "ag" ⟨⟨2023, 1, 25⟩, ⟨10, 0, 0⟩⟩).andTime
               (Hms.toTod (TimeRangeHms.new 210100 23000).start),
             (weeklyRolledEnd janCal ⟨⟨2023, 1, 25⟩, ⟨10, 0, 0⟩⟩
                 (Ymd.fromYyyymmdd 20230120)).andTime
               (Hms.toTod (TimeRangeHms.new 133100 150000).stop)⟩)) :=
  c3_weekly_bucketer trdFix janCal "ag" ⟨⟨2023, 1, 25⟩, ⟨10, 0, 0⟩⟩ agTtr
    (TimeRangeHms.new 210100 23000) (TimeRangeHms.new 133100 150000)
    (Ymd.fromYyyymmdd 20230120) rfl rfl rfl (by decide) (by decide) (fun _ => rfl)

/-- Embedding of `convert_to_30m60m120m::ConvertTo30m60m120m`: the calendar
plus the per-breed, per-period window store (`StoreData`), association lists
standing for the `HashMap`s with upper-cased breed keys. -/
structure ConvertTo30m60m120m where
  tdu : TradingDayUtil
  store_data : List (String × List (String × List TimeRangeHms))

/-- Embedding of `ConvertTo30m60m120m::time_range`.  `e.hour - s.hour` is the
source's `u8` subtraction, which never underflows on the well-formed windows
this code is called with (start before end), so `Nat` subtraction coincides. -/
def ConvertTo30m60m120m.time_range (c : ConvertTo30m60m120m) (breed period : String)
    (datetime : DateTime) : Except KLineTimeError TimeRangeDateTime :=
  match c.store_data.lookup (toUpperStr breed) with
  | none => .error (.BreedNotExist breed "Convert30m60m120m")
  | some period_map =>
    match period_map.lookup period with
    | none => .error (.PeriodNotExist period "Convert30m60m120m")
    | some ws =>
      match ws.find? (fun v => v.inRangeTod datetime.tod) with
      | none => .error (.DatetimeNotInRange breed datetime)
      | some time_range_hms =>
        let hms := Hms.fromTod datetime.tod
        let s := time_range_hms.start
        let e := time_range_hms.stop
        let stime := Hms.toTod s
        let etime := Hms.toTod e
        if e.hhmmss < s.hhmmss then
          if s.hhmmss ≤ hms.hhmmss ∧ hms.hhmmss < 235959 then
            .ok ⟨datetime.date.andTime stime, (datetime.date.addDays 1).andTime etime⟩
          else if hms.hhmmss ≤ e.hhmmss then
            .ok ⟨(datetime.date.subDays 1).andTime stime, datetime.date.andTime etime⟩
          else
            .ok ⟨datetime.date.andTime stime, datetime.date.andTime etime⟩
        else if 7 ≤ e.hour - s.hour then
          if hms.hhmmss < 30000 then
            if c.tdu.is_td datetime.date.key then
              .ok ⟨datetime.date.andTime stime, datetime.date.andTime etime⟩
            else
              (c.tdu.next datetime.date.key).map (fun next_td =>
                ⟨datetime.date.andTime stime, (Ymd.toDate next_td).andTime etime⟩)
          else if 8 < hms.hour then
            (c.tdu.prev datetime.date.key).map (fun prev_td =>
              ⟨((Ymd.toDate prev_td).addDays 1).andTime stime,
                datetime.date.andTime etime⟩)
          else
            .ok ⟨datetime.date.andTime stime, datetime.date.andTime etime⟩
        else
          .ok ⟨datetime.date.andTime stime, datetime.date.andTime etime⟩

/-- Embedding of `ConvertTo1d::time_range` (`first()/last().unwrap()` on an
empty range list is the `panicked` error). -/
def ConvertTo1d.time_range (trd : TxTimeRangeData) (tdu : TradingDayUtil)
    (breed : String) (datetime : DateTime) : Except KLineTimeError TimeRangeDateTime :=
  (trd.time_range_vec breed).bind (fun tx_time_range_vec =>
    match tx_time_range_vec.head?, tx_time_range_vec.getLast? with
    | some firstTr, some lastTr =>
      let stime := Hms.toTod firstTr.start
      let etime := Hms.toTod lastTr.stop
      let yyyymmdd := datetime.date.key
      let hhmmss := (Hms.fromTod datetime.tod).hhmmss
      let sdatetime := datetime.date.andTime stime
      let edatetime := datetime.date.andTime etime
      if firstTr.start.hhmmss = 210100 then
        if 210100 ≤ hhmmss ∧ hhmmss ≤ 235959 then
          (tdu.next yyyymmdd).map (fun next_td =>
            ⟨sdatetime, (Ymd.toDate next_td).andTime etime⟩)
        else if hhmmss ≤ 23000 then
          (tdu.prev yyyymmdd).bind (fun prev_td =>
            if tdu.is_td yyyymmdd then
              .ok ⟨(Ymd.toDate prev_td).andTime stime, edatetime⟩
            else
              (tdu.next yyyymmdd).map (fun next_td =>
                ⟨(Ymd.toDate prev_td).andTime stime,
                  (Ymd.toDate next_td).andTime etime⟩))
        else if 90100 ≤ hhmmss ∧ hhmmss ≤ lastTr.stop.hhmmss then
          (tdu.prev yyyymmdd).map (fun prev_td =>
            ⟨(Ymd.toDate prev_td).andTime stime, edatetime⟩)
        else
          .ok ⟨sdatetime, edatetime⟩
      else
        .ok ⟨sdatetime, edatetime⟩
    | _, _ => .error .panicked)

/-- Embedding of `ConvertTo1Month::time_range`.  The source's `days_in_month`
computes the month length by `NaiveDate` subtraction, which equals the
`daysInMonth` table. -/
def ConvertTo1Month.time_range (trd : TxTimeRangeData) (tdu : TradingDayUtil)
    (breed : String) (datetime : DateTime) : Except KLineTimeError TimeRangeDateTime :=
  let year := datetime.date.y
  let month := datetime.date.m
  let days := daysInMonth year month
  (trd.time_range_vec breed).bind (fun trh_vec =>
    match trh_vec.head?, trh_vec.getLast? with
    | some firstTr, some lastTr =>
      let start_time := Hms.toTod firstTr.start
      let end_time := Hms.toTod lastTr.stop
      let edate0 : Date := ⟨year, month, days⟩
      (if tdu.is_td edate0.key then .ok edate0
       else (tdu.prev edate0.key).map Ymd.toDate).bind (fun edate =>
        let sdate : Date := ⟨year, month, 1⟩
        let edatetime := edate.andTime end_time
        if trd.is_had_night breed = false then
          .ok ⟨sdate.andTime start_time, edatetime⟩
        else
          (if DateTime.lt edatetime datetime then
            let ym : Nat × Nat :=
              if month = 12 then (year + 1, 1) else (year, month + 1)
            let days2 := daysInMonth ym.1 ym.2
            let sdate2 : Date := ⟨ym.1, ym.2, 1⟩
            let edate20 : Date := ⟨ym.1, ym.2, days2⟩
            (if tdu.is_td edate20.key then .ok (sdate2, edate20)
             else (tdu.prev edate20.key).map (fun p => (sdate2, Ymd.toDate p)))
          else (.ok (sdate, edate) : Except KLineTimeError (Date × Date))).bind
            (fun se =>
              (tdu.prev se.1.key).map (fun p =>
                ⟨(Ymd.toDate p).andTime start_time, se.2.andTime end_time⟩)))
    | _, _ => .error .panicked)

/-- Embedding of `convert_to_xm::ConvertToXm`: the components reachable from
`time_range_xm` (the 1-minute converter is not consulted there). -/
structure ConvertToXm where
  trd : TxTimeRangeData
  tdu : TradingDayUtil
  c30 : ConvertTo30m60m120m

/-- Embedding of `ConvertToXm::time_range_xm`: period dispatch. -/
def ConvertToXm.time_range_xm (x : ConvertToXm) (breed period : String)
    (datetime : DateTime) : Except KLineTimeError TimeRangeDateTime :=
  if period = "3m" ∨ period = "5m" ∨ period = "15m" then
    (ConvertTo3m5m15m.time_range period datetime).elim (.error .panicked) .ok
  else if period = "30m" ∨ period = "60m" ∨ period = "120m" then
    x.c30.time_range breed period datetime
  else if period = "1d" then
    ConvertTo1d.time_range x.trd x.tdu breed datetime
  else if period = "1w" then
    ConvertTo1W.time_range x.trd x.tdu breed datetime
  else if period = "1mth" ∨ period = "1month" then
    ConvertTo1Month.time_range x.trd x.tdu breed datetime
  else
    .error (.PeriodNotSupport period "convert_xm::time_range_xm")

lemma DateTime.lt_irrefl (a : DateTime) : ¬ DateTime.lt a a := by
  intro h
  have h2 : Date.lt a.date a.date ∨ (a.date = a.date ∧ Tod.lt a.tod a.tod) := h
  rcases h2 with h2 | ⟨-, h2⟩
  · simp only [Date.lt] at h2
    omega
  · simp only [Tod.lt] at h2
    omega

/-- Closed form of `ConvertTo1W::time_range` under explicit lookup results:
the call fails with `WeekNotHadTxDay` exactly when the end datetime (rolled
end date at the last close) precedes the start datetime (start date at the
first open). -/
lemma ConvertTo1W.time_range_eval
    (trd : TxTimeRangeData) (tdu : TradingDayUtil) (breed : String) (dt : DateTime)
    (v : BreedTxTimeRange) (firstTr lastTr : TimeRangeHms) (p : Ymd)
    (hv : trd.getBreed breed = some v)
    (hfirst : v.tr_vec.head? = some firstTr)
    (hlast : v.tr_vec.getLast? = some lastTr)
    (hprev : tdu.is_td (weeklyNominalEnd dt).key = false →
      tdu.prev (weeklyNominalEnd dt).key = .ok p) :
    ConvertTo1W.time_range trd tdu breed dt =
      (if DateTime.lt ((weeklyRolledEnd tdu dt p).andTime (Hms.toTod lastTr.stop))
          ((weeklyStart trd breed dt).andTime (Hms.toTod firstTr.start)) then
        .error (.WeekNotHadTxDay dt)
      else .ok ⟨(weeklyStart trd breed dt).andTime (Hms.toTod firstTr.start),
                (weeklyRolledEnd tdu dt p).andTime (Hms.toTod lastTr.stop)⟩) := by
  cases htd : tdu.is_td (weeklyNominalEnd dt).key with
  | true =>
    have hR : weeklyRolledEnd tdu dt p = weeklyNominalEnd dt := by
      simp only [weeklyRolledEnd]
      rw [if_pos htd]
    rw [hR]
    simp only [ConvertTo1W.time_range]
    rw [if_pos htd]
    simp only [Except.bind, TxTimeRangeData.time_range_vec, hv, hfirst, hlast]
  | false =>
    have hp := hprev htd
    have hR : weeklyRolledEnd tdu dt p = Ymd.toDate p := by
      simp only [weeklyRolledEnd]
      rw [if_neg (by simp [htd])]
    rw [hR]
    by_cases hps : Date.lt (Ymd.toDate p) (weeklyStart trd breed dt)
    · have hlt : DateTime.lt ((Ymd.toDate p).andTime (Hms.toTod lastTr.stop))
          ((weeklyStart trd breed dt).andTime (Hms.toTod firstTr.start)) :=
        Or.inl hps
      rw [if_pos hlt]
      simp only [ConvertTo1W.time_range]
      rw [if_neg (by simp [htd]), hp]
      simp only [Except.bind]
      rw [if_pos hps]
    · simp only [ConvertTo1W.time_range]
      rw [if_neg (by simp [htd]), hp]
      simp only [Except.bind]
      rw [if_neg hps]
      simp only [Except.bind, TxTimeRangeData.time_range_vec, hv, hfirst, hlast]

/-- Idempotence of the intraday bucketer behind the `3m/5m/15m` dispatcher
arm: the close of a window has `minute % p = 0` and so is its own close. -/
lemma c6_intraday (p : Nat) (hp : p = 3 ∨ p = 5 ∨ p = 15) {period : String}
    (hpv : PeriodUtil.pv period = some p) (dt : DateTime) (hm : dt.tod.minute < 60)
    (r : TimeRangeDateTime)
    (hok : (ConvertTo3m5m15m.time_range period dt).elim
        (Except.error KLineTimeError.panicked) Except.ok = .ok r) :
    ∃ r2, (ConvertTo3m5m15m.time_range period r.stop).elim
        (Except.error KLineTimeError.panicked) Except.ok = .ok r2 ∧
      r2.stop = r.stop := by
  simp only [ConvertTo3m5m15m.time_range, hpv, Option.map, Option.elim] at hok ⊢
  injection hok with hok2
  have hstop : r.stop = dt.addMinutes
      (if dt.tod.minute % p = 0 then dt.tod.minute % p
        else p - dt.tod.minute % p) := by
    rw [← hok2]
  have hmin : r.stop.tod.minute % p = 0 := by
    rw [hstop, DateTime.minute_addMinutes hm]
    by_cases h0 : dt.tod.minute % p = 0
    · rw [if_pos h0]
      rcases hp with h | h | h <;> subst h <;> omega
    · rw [if_neg h0]
      rcases hp with h | h | h <;> subst h <;> omega
  refine ⟨⟨r.stop.subMinutes (p - 1), r.stop⟩, ?_, rfl⟩
  rw [if_pos hmin, if_pos hmin, hmin]
  rfl

/-- Side conditions under which a `30m/60m/120m` window close re-buckets to
itself: the store lookups succeed, the window found at the close is the one
closing there (windows are disjoint in the loaded data), and the previous
trading day is available when the night-to-day adjustment fires. -/
def C6Side30 (c : ConvertTo30m60m120m) (breed period : String) (e : DateTime) : Prop :=
  ∃ pm ws w2,
    c.store_data.lookup (toUpperStr breed) = some pm ∧
    pm.lookup period = some ws ∧
    ws.find? (fun v => v.inRangeTod e.tod) = some w2 ∧
    Hms.toTod w2.stop = e.tod ∧
    Hms.fromTod e.tod = w2.stop ∧
    (w2.start.hhmmss ≤ w2.stop.hhmmss → 7 ≤ w2.stop.hour - w2.start.hour →
      8 < (Hms.fromTod e.tod).hour →
      ∃ q, c.tdu.prev e.date.key = .ok q)

lemma c6_30m_second (c : ConvertTo30m60m120m) (breed period : String) (e : DateTime)
    (h : C6Side30 c breed period e) :
    ∃ r2, c.time_range breed period e = .ok r2 ∧ r2.stop = e := by
  obtain ⟨pm, ws, w2, hpm, hws, hfind, htod, hhms, hprev⟩ := h
  have he1 : (Hms.fromTod e.tod).hhmmss = w2.stop.hhmmss := by rw [hhms]
  have he2 : (Hms.fromTod e.tod).hour = w2.stop.hour := by rw [hhms]
  have he3 : w2.stop.hhmmss = (e.tod.hour * 100 + e.tod.minute) * 100 + e.tod.second := by
    rw [← hhms]
    rfl
  have he4 : w2.stop.hour = e.tod.hour := by
    rw [← hhms]
    rfl
  have heta : e.date.andTime e.tod = e := rfl
  simp only [ConvertTo30m60m120m.time_range, hpm, hws, hfind]
  by_cases hcross : w2.stop.hhmmss < w2.start.hhmmss
  · rw [if_pos hcross]
    rw [if_neg (by intro hcc; rw [he1] at hcc; omega)]
    rw [if_pos (by rw [he1])]
    exact ⟨_, rfl, by rw [htod, heta]⟩
  · rw [if_neg hcross]
    by_cases h7 : 7 ≤ w2.stop.hour - w2.start.hour
    · rw [if_pos h7]
      rw [if_neg (by rw [he1]; omega)]
      by_cases h8 : 8 < (Hms.fromTod e.tod).hour
      · rw [if_pos h8]
        obtain ⟨q, hq⟩ := hprev (by omega) h7 h8
        rw [hq]
        simp only [Except.map]
        exact ⟨_, rfl, by rw [htod, heta]⟩
      · rw [if_neg h8]
        exact ⟨_, rfl, by rw [htod, heta]⟩
    · rw [if_neg h7]
      exact ⟨_, rfl, by rw [htod, heta]⟩

/-- Side conditions under which a daily close re-buckets to itself: the
session list loads, the close is the last segment's close, and for night
breeds the close lies strictly inside (02:30, 21:01) at or after 09:01 with
the previous trading day available. -/
def C6Side1d (trd : TxTimeRangeData) (tdu : TradingDayUtil) (breed : String)
    (e : DateTime) : Prop :=
  ∃ vvec firstTr lastTr,
    trd.time_range_vec breed = .ok vvec ∧
    vvec.head? = some firstTr ∧ vvec.getLast? = some lastTr ∧
    Hms.toTod lastTr.stop = e.tod ∧
    Hms.fromTod e.tod = lastTr.stop ∧
    (firstTr.start.hhmmss = 210100 →
      23000 < lastTr.stop.hhmmss ∧ 90100 ≤ lastTr.stop.hhmmss ∧
      lastTr.stop.hhmmss < 210100 ∧
      ∃ q, tdu.prev e.date.key = .ok q)

lemma c6_1d_second (trd : TxTimeRangeData) (tdu : TradingDayUtil) (breed : String)
    (e : DateTime) (h : C6Side1d trd tdu breed e) :
    ∃ r2, ConvertTo1d.time_range trd tdu breed e = .ok r2 ∧ r2.stop = e := by
  obtain ⟨vvec, firstTr, lastTr, hvec, hf, hl, htod, hhms, hnight⟩ := h
  have he1 : (Hms.fromTod e.tod).hhmmss = lastTr.stop.hhmmss := by rw [hhms]
  have heta : e.date.andTime e.tod = e := rfl
  simp only [ConvertTo1d.time_range, hvec, Except.bind, hf, hl]
  by_cases h21 : firstTr.start.hhmmss = 210100
  · obtain ⟨hA, hB, hC, q, hq⟩ := hnight h21
    rw [if_pos h21]
    rw [if_neg (by intro hcc; rw [he1] at hcc; omega)]
    rw [if_neg (by rw [he1]; omega)]
    rw [if_pos (by rw [he1]; omega)]
    rw [hq]
    simp only [Except.map]
    exact ⟨_, rfl, by rw [htod, heta]⟩
  · rw [if_neg h21]
    exact ⟨_, rfl, by rw [htod, heta]⟩

/-- Side conditions under which a weekly close re-buckets to itself: lookups
succeed, the close is the last segment's close at or before 21:00:00 on a
valid weekday, the close's own week's Friday rolls back to the close's date,
and a last close earlier in the day than the first open only happens for
breeds flagged as night breeds. -/
def C6Side1w (trd : TxTimeRangeData) (tdu : TradingDayUtil) (breed : String)
    (e : DateTime) : Prop :=
  ∃ v firstTr lastTr p2,
    trd.getBreed breed = some v ∧
    v.tr_vec.head? = some firstTr ∧ v.tr_vec.getLast? = some lastTr ∧
    Hms.toTod lastTr.stop = e.tod ∧
    (Hms.fromTod e.tod).hhmmss ≤ 210000 ∧
    e.date.Valid ∧ 7 ≤ e.date.dayNum ∧ e.date.numberFromMonday ≤ 5 ∧
    (tdu.is_td (weeklyNominalEnd e).key = true → weeklyNominalEnd e = e.date) ∧
    (tdu.is_td (weeklyNominalEnd e).key = false →
      tdu.prev (weeklyNominalEnd e).key = .ok p2 ∧ Ymd.toDate p2 = e.date) ∧
    (Tod.lt (Hms.toTod lastTr.stop) (Hms.toTod firstTr.start) →
      trd.is_had_night breed = true)

lemma c6_1w_second (trd : TxTimeRangeData) (tdu : TradingDayUtil) (breed : String)
    (e : DateTime) (h : C6Side1w trd tdu breed e) :
    ∃ r2, ConvertTo1W.time_range trd tdu breed e = .ok r2 ∧ r2.stop = e := by
  obtain ⟨v, fT, lT, p2, hv, hf, hl, htod, h21, hval, hday, hnfm, htd, hpw, hTn⟩ := h
  have hprev : tdu.is_td (weeklyNominalEnd e).key = false →
      tdu.prev (weeklyNominalEnd e).key = .ok p2 := fun hh => (hpw hh).1
  rw [ConvertTo1W.time_range_eval trd tdu breed e v fT lT p2 hv hf hl hprev]
  have hRE : weeklyRolledEnd tdu e p2 = e.date := by
    simp only [weeklyRolledEnd]
    cases htd2 : tdu.is_td (weeklyNominalEnd e).key
    · rw [if_neg (by decide)]
      exact (hpw htd2).2
    · rw [if_pos rfl]
      exact htd htd2
  rw [hRE]
  obtain ⟨hEv, hfri, hnfri, hmod⟩ := weeklyNominalEnd_spec hval
  have hnl : ¬ (e.date.numberFromMonday = 5 ∧ 210000 < (Hms.fromTod e.tod).hhmmss) := by
    intro hcc
    omega
  have hbb := hnfri hnl
  have hnfm2 : e.date.numberFromMonday = e.date.dayNum % 7 + 1 := rfl
  have hupper : (weeklyNominalEnd e).dayNum ≤ e.date.dayNum + 4 := by omega
  obtain ⟨hSv, hSd⟩ := weeklyStart_spec trd breed hval hday
  have hnot : ¬ DateTime.lt (e.date.andTime (Hms.toTod lT.stop))
      ((weeklyStart trd breed e).andTime (Hms.toTod fT.start)) := by
    intro hlt
    have hlt2 : Date.lt e.date (weeklyStart trd breed e) ∨
        (e.date = weeklyStart trd breed e ∧
          Tod.lt (Hms.toTod lT.stop) (Hms.toTod fT.start)) := hlt
    cases hn : trd.is_had_night breed
    · rw [hn] at hSd
      rw [if_neg (by decide)] at hSd
      rcases hlt2 with hd | ⟨hdeq, htlt⟩
      · rw [Date.lt_iff_dayNum hval hSv] at hd
        omega
      · exact absurd (hTn htlt) (by simp [hn])
    · rw [hn] at hSd
      rw [if_pos rfl] at hSd
      rcases hlt2 with hd | ⟨hdeq, -⟩
      · rw [Date.lt_iff_dayNum hval hSv] at hd
        omega
      · have hcon := congrArg Date.dayNum hdeq
        omega
  rw [if_neg hnot]
  exact ⟨_, rfl, by rw [htod]; rfl⟩

/-- Side conditions under which a monthly close re-buckets to itself: the
session list loads, the close is the last segment's close, the close's date
is what the last calendar day of its own month rolls back to, and for night
breeds the previous trading day of the month's first is available. -/
def C6Side1mth (trd : TxTimeRangeData) (tdu : TradingDayUtil) (breed : String)
    (e : DateTime) : Prop :=
  ∃ vvec firstTr lastTr p3,
    trd.time_range_vec breed = .ok vvec ∧
    vvec.head? = some firstTr ∧ vvec.getLast? = some lastTr ∧
    Hms.toTod lastTr.stop = e.tod ∧
    ((tdu.is_td (Date.key ⟨e.date.y, e.date.m, daysInMonth e.date.y e.date.m⟩) = true →
        (⟨e.date.y, e.date.m, daysInMonth e.date.y e.date.m⟩ : Date) = e.date) ∧
     (tdu.is_td (Date.key ⟨e.date.y, e.date.m, daysInMonth e.date.y e.date.m⟩) = false →
        tdu.prev (Date.key ⟨e.date.y, e.date.m, daysInMonth e.date.y e.date.m⟩) = .ok p3 ∧
        Ymd.toDate p3 = e.date)) ∧
    (trd.is_had_night breed = true →
      ∃ q, tdu.prev (Date.key ⟨e.date.y, e.date.m, 1⟩) = .ok q)

lemma c6_1mth_second (trd : TxTimeRangeData) (tdu : TradingDayUtil) (breed : String)
    (e : DateTime) (h : C6Side1mth trd tdu breed e) :
    ∃ r2, ConvertTo1Month.time_range trd tdu breed e = .ok r2 ∧ r2.stop = e := by
  obtain ⟨vvec, fT, lT, p3, hvec, hf, hl, htod, ⟨hroll1, hroll2⟩, hq⟩ := h
  have heta : e.date.andTime e.tod = e := rfl
  simp only [ConvertTo1Month.time_range, hvec, Except.bind, hf, hl]
  cases hr : tdu.is_td (Date.key ⟨e.date.y, e.date.m, daysInMonth e.date.y e.date.m⟩) with
  | false =>
    rw [if_neg (by decide)]
    rw [(hroll2 hr).1]
    simp only [Except.map, Except.bind]
    rw [(hroll2 hr).2, htod, heta]
    cases hn : trd.is_had_night breed with
    | false =>
      rw [if_pos rfl]
      exact ⟨_, rfl, rfl⟩
    | true =>
      rw [if_neg (by decide)]
      rw [if_neg (DateTime.lt_irrefl e)]
      simp only [Except.bind]
      obtain ⟨q, hqq⟩ := hq hn
      rw [hqq]
      simp only [Except.map]
      exact ⟨_, rfl, rfl⟩
  | true =>
    rw [if_pos rfl]
    simp only [Except.bind]
    rw [hroll1 hr, htod, heta]
    cases hn : trd.is_had_night breed with
    | false =>
      rw [if_pos rfl]
      exact ⟨_, rfl, rfl⟩
    | true =>
      rw [if_neg (by decide)]
      rw [if_neg (DateTime.lt_irrefl e)]
      simp only [Except.bind]
      obtain ⟨q, hqq⟩ := hq hn
      rw [hqq]
      simp only [Except.map]
      exact ⟨_, rfl, rfl⟩

/-- The per-period side conditions for idempotence: the intraday periods need
only a well-formed minute; the calendar-backed periods need their lookup and
rollback conditions at the close (`C6Side30`, `C6Side1d`, `C6Side1w`,
`C6Side1mth`). -/
def C6Side (x : ConvertToXm) (breed period : String) (dt : DateTime)
    (r : TimeRangeDateTime) : Prop :=
  if period = "3m" ∨ period = "5m" ∨ period = "15m" then dt.tod.minute < 60
  else if period = "30m" ∨ period = "60m" ∨ period = "120m" then
    C6Side30 x.c30 breed period r.stop
  else if period = "1d" then C6Side1d x.trd x.tdu breed r.stop
  else if period = "1w" then C6Side1w x.trd x.tdu breed r.stop
  else if period = "1mth" ∨ period = "1month" then C6Side1mth x.trd x.tdu breed r.stop
  else True

/-- C6: for every supported period, re-bucketing a bucket close returned by
`time_range_xm` for the same breed and period yields the same close, under
the side conditions `C6Side` (successful calendar/store lookups at the close
and disjoint stored windows). -/
theorem c6_bucket_idempotent (x : ConvertToXm) (breed period : String)
    (dt : DateTime) (r : TimeRangeDateTime)
    (hok : x.time_range_xm breed period dt = .ok r)
    (hside : C6Side x breed period dt r) :
    ∃ r2, x.time_range_xm breed period r.stop = .ok r2 ∧ r2.stop = r.stop := by
  by_cases h3 : period = "3m" ∨ period = "5m" ∨ period = "15m"
  · simp only [ConvertToXm.time_range_xm, if_pos h3] at hok ⊢
    simp only [C6Side, if_pos h3] at hside
    rcases h3 with hq | hq | hq <;> subst hq
    · exact c6_intraday 3 (by omega) pv_3m dt hside r hok
    · exact c6_intraday 5 (by omega) pv_5m dt hside r hok
    · exact c6_intraday 15 (by omega) pv_15m dt hside r hok
  · by_cases h30 : period = "30m" ∨ period = "60m" ∨ period = "120m"
    · simp only [ConvertToXm.time_range_xm, if_neg h3, if_pos h30] at hok ⊢
      simp only [C6Side, if_neg h3, if_pos h30] at hside
      exact c6_30m_second x.c30 breed period r.stop hside
    · by_cases h1d : period = "1d"
      · simp only [ConvertToXm.time_range_xm, if_neg h3, if_neg h30, if_pos h1d] at hok ⊢
        simp only [C6Side, if_neg h3, if_neg h30, if_pos h1d] at hside
        exact c6_1d_second x.trd x.tdu breed r.stop hside
      · by_cases h1w : period = "1w"
        · simp only [ConvertToXm.time_range_xm, if_neg h3, if_neg h30, if_neg h1d,
            if_pos h1w] at hok ⊢
          simp only [C6Side, if_neg h3, if_neg h30, if_neg h1d, if_pos h1w] at hside
          exact c6_1w_second x.trd x.tdu breed r.stop hside
        · by_cases h1m : period = "1mth" ∨ period = "1month"
          · simp only [ConvertToXm.time_range_xm, if_neg h3, if_neg h30, if_neg h1d,
              if_neg h1w, if_pos h1m] at hok ⊢
            simp only [C6Side, if_neg h3, if_neg h30, if_neg h1d, if_neg h1w,
              if_pos h1m] at hside
            exact c6_1mth_second x.trd x.tdu breed r.stop hside
          · simp only [ConvertToXm.time_range_xm, if_neg h3, if_neg h30, if_neg h1d,
              if_neg h1w, if_neg h1m] at hok
            exact Except.noConfusion hok

/-- Witness for C6: re-bucketing the 5-minute close `2022-06-13 10:50` gives
back `10:50`. -/
theorem c6_bucket_idempotent_witness :
    ∃ r2, (⟨trdFix, juneCal, ⟨juneCal, []⟩⟩ : ConvertToXm).time_range_xm "ag" "5m"
        (⟨⟨⟨2022, 6, 13⟩, ⟨10, 46, 0⟩⟩, ⟨⟨2022, 6, 13⟩, ⟨10, 50, 0⟩⟩⟩ :
          TimeRangeDateTime).stop = .ok r2 ∧
      r2.stop = (⟨⟨⟨2022, 6, 13⟩, ⟨10, 46, 0⟩⟩, ⟨⟨2022, 6, 13⟩, ⟨10, 50, 0⟩⟩⟩ :
          TimeRangeDateTime).stop :=
  c6_bucket_idempotent ⟨trdFix, juneCal, ⟨juneCal, []⟩⟩ "ag" "5m"
    ⟨⟨2022, 6, 13⟩, ⟨10, 50, 0⟩⟩
    ⟨⟨⟨2022, 6, 13⟩, ⟨10, 46, 0⟩⟩, ⟨⟨2022, 6, 13⟩, ⟨10, 50, 0⟩⟩⟩
    (by rfl)
    (by show (50 : Nat) < 60
        decide)
